import Mathlib

/-!
Verification of the staking ledger and reward-accrual engine of the
Defi-Sol repository (backend controllers `stakingController.ts` /
`poolController.ts` and the Mongoose models `pool.ts` / `transaction.ts`).

The TypeScript code is shallowly embedded:
* JavaScript numbers are modelled as `ℚ` (machine-float rounding is not
  modelled; all values appearing in the claims are exactly representable);
  the special values `NaN` / `±Infinity`, which matter only for one input
  validation check, are modelled separately by the small type `JNum`.
* The Mongo collections become lists: the transaction collection is a list
  of `Transaction` records, the pool collection an association list keyed
  by pool id, the user collection a list of user ids.
* `uuidv4()` is modelled by a fresh-id counter `nextId` carried in the
  state: the only property of the uuid the code relies on is uniqueness.
* Each Express handler becomes a pure function returning `Except ApiErr`;
  the error constructors mirror the error responses of the handlers.
-/

/-- JavaScript `x || 0` applied to a (finite) number: `0` is falsy, any
other number is returned unchanged.  Used by `stakeTokens` / `unstakeTokens`
for `(pool.totalStaked || 0)`. -/
def jsOr0 (q : ℚ) : ℚ := if q = 0 then 0 else q

/-- JavaScript `x || d` applied to an optional (finite) number: `undefined`
and `0` are falsy and give the default.  Used by `createPool` for
`minStake || 0.1` and `lockPeriod || 0`. -/
def jsOrDefault (o : Option ℚ) (d : ℚ) : ℚ :=
  match o with
  | some q => if q = 0 then d else q
  | none => d

/-- `parseFloat(x.toFixed(n))`: round to `n` decimal digits.  JavaScript
`toFixed` picks the closest `k / 10^n` and on a tie the larger `k`, which
is exactly `round` (ties toward `+∞`). -/
def roundTo (n : ℕ) (q : ℚ) : ℚ := (round (q * 10 ^ n) : ℚ) / 10 ^ n

/-- A JavaScript number including the non-finite values, used to model the
amount-validation checks of `depositToPool` / `withdrawFromPool`
(`isNaN(amount) || amount <= 0`) on the full JS number domain. -/
inductive JNum where
  | nan : JNum
  | inf : JNum
  | ninf : JNum
  | fin : ℚ → JNum
  deriving DecidableEq

/-- JavaScript `isNaN`. -/
def jsIsNaN : JNum → Bool
  | JNum.nan => true
  | _ => false

/-- JavaScript `isFinite`. -/
def jsIsFinite : JNum → Bool
  | JNum.fin _ => true
  | _ => false

/-- JavaScript `<=` on numbers (any comparison with `NaN` is false). -/
def jsLe : JNum → JNum → Bool
  | JNum.nan, _ => false
  | _, JNum.nan => false
  | JNum.ninf, _ => true
  | _, JNum.inf => true
  | JNum.inf, _ => false
  | JNum.fin _, JNum.ninf => false
  | JNum.fin a, JNum.fin b => a ≤ b

/-- The amount check of `depositToPool` / `withdrawFromPool`
(poolController.ts lines 307 and 357): `isNaN(amount) || amount <= 0`.
`true` means the request is rejected with the validation error. -/
def jsAmountInvalid (a : JNum) : Bool := jsIsNaN a || jsLe a (JNum.fin 0)

/-- The pool document, exactly the fields of `PoolSchema` (models/pool.ts):
`name`, `type`, `apy`, `minStake`, `lockPeriod`, `liquidity`,
`totalStaked`.  (There is no staker-count field in the schema.) -/
structure Pool where
  name : String
  type : String
  apy : ℚ
  minStake : ℚ
  lockPeriod : ℚ
  liquidity : ℚ
  totalStaked : ℚ
  deriving DecidableEq

/-- The numeric attributes of a pool document, in schema order. -/
def poolNumFields (p : Pool) : List ℚ :=
  [p.apy, p.minStake, p.lockPeriod, p.liquidity, p.totalStaked]

/-- The request body of `createPool` (poolController.ts): every field may
be absent. -/
structure PoolConfig where
  name : Option String
  type : Option String
  apy : Option ℚ
  minStake : Option ℚ
  lockPeriod : Option ℚ
  deriving DecidableEq

/-- A ledger entry, exactly the fields of `TransactionSchema`
(models/transaction.ts). -/
structure Transaction where
  transactionId : ℕ
  originalTransactionId : Option ℕ
  type : String
  amount : ℚ
  timestamp : ℚ
  userId : ℕ
  poolId : ℕ
  unlockTime : Option ℚ
  deriving DecidableEq

/-- The JSON body returned by `calculateRewards`. -/
structure RewardResult where
  stakeAmount : ℚ
  stakingDurationDays : ℚ
  apy : ℚ
  rewards : ℚ
  isUnstaked : Bool
  deriving DecidableEq

/-- The error responses of the handlers (spec section 7 taxonomy). -/
inductive ApiErr where
  | validationErr : ApiErr
  | poolNotFound : ApiErr
  | userNotFound : ApiErr
  | stakeNotFound : ApiErr
  | belowMinimumStake : ℚ → ApiErr
  | alreadyUnstaked : ApiErr
  | stillLocked : ℚ → ApiErr
  | insufficientLiquidity : ApiErr
  deriving DecidableEq

/-- The persistent state: pool collection (keyed by pool id), transaction
collection, user collection (only existence of a user id matters), and the
fresh-id counter standing for `uuidv4`. -/
structure St where
  pools : List (ℕ × Pool)
  txs : List Transaction
  users : List ℕ
  nextId : ℕ
  deriving DecidableEq

/-- `Pool.findById`. -/
def lookupPool (ps : List (ℕ × Pool)) (pid : ℕ) : Option Pool :=
  (ps.find? (fun e => e.1 == pid)).map (fun e => e.2)

/-- `pool.save()` after mutating a pool document found by id. -/
def setPool (ps : List (ℕ × Pool)) (pid : ℕ) (p : Pool) : List (ℕ × Pool) :=
  ps.map (fun e => if e.1 = pid then (pid, p) else e)

/-- Query predicate of `Transaction.findOne({transactionId, type: 'stake',
userId})`. -/
def stakeFindPred (tid uid : ℕ) (t : Transaction) : Bool :=
  t.transactionId == tid && t.type == "stake" && t.userId == uid

/-- Query predicate of `Transaction.findOne({originalTransactionId:
transactionId, type: 'unstake', userId})` (the already-unstaked check of
`unstakeTokens`). -/
def unstakeOwnedPred (tid uid : ℕ) (t : Transaction) : Bool :=
  t.originalTransactionId == some tid && t.type == "unstake" && t.userId == uid

/-- Query predicate of `Transaction.findOne({originalTransactionId:
transactionId, type: 'unstake'})` (the closed check of
`calculateRewards`). -/
def unstakeRefPred (tid : ℕ) (t : Transaction) : Bool :=
  t.originalTransactionId == some tid && t.type == "unstake"

/-- `createPool` (poolController.ts lines 215-243).  The required-field
check is JS truthiness `!name || !type || !apy`: an absent field, an empty
string and a zero APY all fail it.  Defaults: `minStake || 0.1`,
`lockPeriod || 0`; `totalStaked` is set to `0`; `liquidity` takes the
schema default `0`. -/
def createPool (c : PoolConfig) : Except ApiErr Pool :=
  match c.name, c.type, c.apy with
  | some nm, some ty, some ap =>
    if nm = "" ∨ ty = "" ∨ ap = 0 then Except.error ApiErr.validationErr
    else Except.ok
      { name := nm
        type := ty
        apy := ap
        minStake := jsOrDefault c.minStake (1 / 10)
        lockPeriod := jsOrDefault c.lockPeriod 0
        liquidity := 0
        totalStaked := 0 }
  | _, _, _ => Except.error ApiErr.validationErr

/-- `stakeTokens` (stakingController.ts lines 514-575).  Checks, in source
order: amount validity (`!amount || isNaN(amount) || amount <= 0`, which on
finite values is `amount ≤ 0`), pool existence, the pool minimum
(`amount < pool.minStake`), user existence; then appends the stake
transaction (with `unlockTime` set when `pool.lockPeriod` is truthy) and
adds `amount` to `pool.totalStaked`. -/
def stakeTokens (s : St) (poolId : ℕ) (amount : ℚ) (uid : ℕ) (now : ℚ) :
    Except ApiErr (Transaction × Pool × St) :=
  if amount ≤ 0 then Except.error ApiErr.validationErr
  else
    match lookupPool s.pools poolId with
    | none => Except.error ApiErr.poolNotFound
    | some pool =>
      if amount < pool.minStake then
        Except.error (ApiErr.belowMinimumStake pool.minStake)
      else if s.users.contains uid then
        let tx : Transaction :=
          { transactionId := s.nextId
            originalTransactionId := none
            type := "stake"
            amount := amount
            timestamp := now
            userId := uid
            poolId := poolId
            unlockTime :=
              if pool.lockPeriod = 0 then none
              else some (now + pool.lockPeriod * 86400000) }
        let pool' : Pool := { pool with totalStaked := jsOr0 pool.totalStaked + amount }
        Except.ok (tx, pool',
          { s with
            txs := s.txs ++ [tx]
            pools := setPool s.pools poolId pool'
            nextId := s.nextId + 1 })
      else Except.error ApiErr.userNotFound

/-- The tail of `unstakeTokens` after the guards have passed: pool lookup,
append of the unstake transaction, and the floored decrement
`pool.totalStaked = Math.max(0, (pool.totalStaked || 0) - stake.amount)`. -/
def unstakeFinish (s : St) (tid : ℕ) (stakeTx : Transaction) (uid : ℕ) (now : ℚ) :
    Except ApiErr (Transaction × Pool × St) :=
  match lookupPool s.pools stakeTx.poolId with
  | none => Except.error ApiErr.poolNotFound
  | some pool =>
    let utx : Transaction :=
      { transactionId := s.nextId
        originalTransactionId := some tid
        type := "unstake"
        amount := stakeTx.amount
        timestamp := now
        userId := uid
        poolId := stakeTx.poolId
        unlockTime := none }
    let pool' : Pool :=
      { pool with totalStaked := max 0 (jsOr0 pool.totalStaked - stakeTx.amount) }
    Except.ok (utx, pool',
      { s with
        txs := s.txs ++ [utx]
        pools := setPool s.pools stakeTx.poolId pool'
        nextId := s.nextId + 1 })

/-- `unstakeTokens` (stakingController.ts lines 578-647).  Checks, in
source order: the stake transaction exists and is owned by the caller, no
unstake transaction already references it, the lock window has elapsed
(`unlockTime && now < unlockTime` rejects); then `unstakeFinish`. -/
def unstakeTokens (s : St) (tid : ℕ) (uid : ℕ) (now : ℚ) :
    Except ApiErr (Transaction × Pool × St) :=
  match s.txs.find? (stakeFindPred tid uid) with
  | none => Except.error ApiErr.stakeNotFound
  | some stakeTx =>
    match s.txs.find? (unstakeOwnedPred tid uid) with
    | some _ => Except.error ApiErr.alreadyUnstaked
    | none =>
      match stakeTx.unlockTime with
      | some u =>
        if now < u then Except.error (ApiErr.stillLocked u)
        else unstakeFinish s tid stakeTx uid now
      | none => unstakeFinish s tid stakeTx uid now

/-- `depositToPool` (poolController.ts lines 301-348): amount check
`isNaN(amount) || amount <= 0`, pool lookup, transaction append,
`pool.liquidity += amount`. -/
def depositToPool (s : St) (poolId : ℕ) (amount : ℚ) (uid : ℕ) (now : ℚ) :
    Except ApiErr (Transaction × Pool × St) :=
  if amount ≤ 0 then Except.error ApiErr.validationErr
  else
    match lookupPool s.pools poolId with
    | none => Except.error ApiErr.poolNotFound
    | some pool =>
      let tx : Transaction :=
        { transactionId := s.nextId
          originalTransactionId := none
          type := "deposit"
          amount := amount
          timestamp := now
          userId := uid
          poolId := poolId
          unlockTime := none }
      let pool' : Pool := { pool with liquidity := pool.liquidity + amount }
      Except.ok (tx, pool',
        { s with
          txs := s.txs ++ [tx]
          pools := setPool s.pools poolId pool'
          nextId := s.nextId + 1 })

/-- `withdrawFromPool` (poolController.ts lines 351-402): amount check,
pool lookup, the liquidity check `pool.liquidity < amount`, transaction
append, `pool.liquidity -= amount`. -/
def withdrawFromPool (s : St) (poolId : ℕ) (amount : ℚ) (uid : ℕ) (now : ℚ) :
    Except ApiErr (Transaction × Pool × St) :=
  if amount ≤ 0 then Except.error ApiErr.validationErr
  else
    match lookupPool s.pools poolId with
    | none => Except.error ApiErr.poolNotFound
    | some pool =>
      if pool.liquidity < amount then Except.error ApiErr.insufficientLiquidity
      else
        let tx : Transaction :=
          { transactionId := s.nextId
            originalTransactionId := none
            type := "withdraw"
            amount := amount
            timestamp := now
            userId := uid
            poolId := poolId
            unlockTime := none }
        let pool' : Pool := { pool with liquidity := pool.liquidity - amount }
        Except.ok (tx, pool',
          { s with
            txs := s.txs ++ [tx]
            pools := setPool s.pools poolId pool'
            nextId := s.nextId + 1 })

/-- `calculateRewards` (stakingController.ts lines 699-755): resolves the
stake transaction and its pool, looks for a referencing unstake, and
computes `stakingDurationDays = (end - start) / 86400000` and
`rewards = (amount * apy / 100) * (days / 365)`, returning the rounded
values.  It is a pure read: no state is returned. -/
def calculateRewards (s : St) (tid : ℕ) (uid : ℕ) (now : ℚ) :
    Except ApiErr RewardResult :=
  match s.txs.find? (stakeFindPred tid uid) with
  | none => Except.error ApiErr.stakeNotFound
  | some stakeTx =>
    match lookupPool s.pools stakeTx.poolId with
    | none => Except.error ApiErr.poolNotFound
    | some pool =>
      let unstakeCheck := s.txs.find? (unstakeRefPred tid)
      let startTime := stakeTx.timestamp
      let endTime :=
        match unstakeCheck with
        | some u => u.timestamp
        | none => now
      let stakingDurationDays := (endTime - startTime) / 86400000
      let rewards := stakeTx.amount * pool.apy / 100 * (stakingDurationDays / 365)
      Except.ok
        { stakeAmount := stakeTx.amount
          stakingDurationDays := roundTo 2 stakingDurationDays
          apy := pool.apy
          rewards := roundTo 6 rewards
          isUnstaked := unstakeCheck.isSome }

/-- A staker-originated request: the two operations of the stake
lifecycle. -/
inductive Op where
  | stakeOp : ℕ → ℚ → ℕ → ℚ → Op
  | unstakeOp : ℕ → ℕ → ℚ → Op
  deriving DecidableEq

/-- Run one request against the state; a rejected request leaves the state
unchanged (the handlers return an error response before any write). -/
def applyOp (s : St) (op : Op) : St :=
  match op with
  | Op.stakeOp pid amt uid now =>
    match stakeTokens s pid amt uid now with
    | Except.ok (_, _, s') => s'
    | Except.error _ => s
  | Op.unstakeOp tid uid now =>
    match unstakeTokens s tid uid now with
    | Except.ok (_, _, s') => s'
    | Except.error _ => s

/-- Run a sequence of requests. -/
def runOps (s : St) (ops : List Op) : St := ops.foldl applyOp s

/-- Does transaction `u` reference stake id `tid` as its closing
unstake? -/
def refsTx (u : Transaction) (tid : ℕ) : Bool :=
  u.type == "unstake" && u.originalTransactionId == some tid

/-- Is the stake transaction `t` closed in ledger `txs` (some unstake
references it)? -/
def closedIn (txs : List Transaction) (t : Transaction) : Bool :=
  txs.any (fun u => refsTx u t.transactionId)

/-- Is `t` a stake event of pool `pid`? -/
def isStakeFor (pid : ℕ) (t : Transaction) : Bool :=
  t.type == "stake" && t.poolId == pid

/-- Is `t` an unstake event of pool `pid`? -/
def isUnstakeFor (pid : ℕ) (t : Transaction) : Bool :=
  t.type == "unstake" && t.poolId == pid

/-- Is `t` an open stake of pool `pid` in ledger `txs` (spec: a stake event
with no referencing unstake event)? -/
def openFor (pid : ℕ) (txs : List Transaction) (t : Transaction) : Bool :=
  isStakeFor pid t && !(closedIn txs t)

/-- Sum of the amounts of a list of transactions. -/
def sumAmt (l : List Transaction) : ℚ := (l.map (fun t => t.amount)).sum

/-- Sum of the amounts of all stake events of pool `pid`. -/
def stakeSum (txs : List Transaction) (pid : ℕ) : ℚ :=
  sumAmt (txs.filter (isStakeFor pid))

/-- Sum of the amounts of all unstake events of pool `pid`. -/
def unstakeSum (txs : List Transaction) (pid : ℕ) : ℚ :=
  sumAmt (txs.filter (isUnstakeFor pid))

/-- Sum of the amounts of all unstake events referencing a stake event of
pool `pid` (the phrasing of the spec invariant). -/
def refUnstakeSum (txs : List Transaction) (pid : ℕ) : ℚ :=
  sumAmt (txs.filter (fun u =>
    u.type == "unstake" && txs.any (fun t =>
      t.type == "stake" && t.poolId == pid &&
        u.originalTransactionId == some t.transactionId)))

/-- Sum of the amounts of the open stakes of pool `pid`. -/
def openSum (txs : List Transaction) (pid : ℕ) : ℚ :=
  sumAmt (txs.filter (fun t => openFor pid txs t))

/-- Number of open stakes of pool `pid` (the spec's staker count). -/
def openCount (txs : List Transaction) (pid : ℕ) : ℕ :=
  (txs.filter (fun t => openFor pid txs t)).length

/-- Number of unstake events referencing stake id `tid`. -/
def refCount (txs : List Transaction) (tid : ℕ) : ℕ :=
  (txs.filter (fun u => refsTx u tid)).length

/-- No unstake event was appended before its stake's unlock time. -/
def noEarlyUnstake (txs : List Transaction) : Prop :=
  ∀ u ∈ txs, ∀ st ∈ txs, refsTx u st.transactionId = true →
    ∀ w, st.unlockTime = some w → w ≤ u.timestamp

/-- Well-formedness of a reachable state: fresh-id discipline, positive
amounts, every unstake references a matching stake, at most one unstake per
stake, and the pool aggregates agree with the ledger. -/
structure Wf (s : St) : Prop where
  idsLt : ∀ t ∈ s.txs, t.transactionId < s.nextId
  idsNodup : (s.txs.map (fun t => t.transactionId)).Nodup
  amtPos : ∀ t ∈ s.txs, 0 < t.amount
  unstakeRef : ∀ u ∈ s.txs, u.type = "unstake" →
    ∃ st, st ∈ s.txs ∧ st.type = "stake" ∧
      u.originalTransactionId = some st.transactionId ∧
      st.userId = u.userId ∧ st.amount = u.amount ∧ st.poolId = u.poolId ∧
      (∀ w, st.unlockTime = some w → w ≤ u.timestamp)
  unstakeOnce : ∀ tid, refCount s.txs tid ≤ 1
  agg : ∀ e ∈ s.pools, e.2.totalStaked = openSum s.txs e.1
  aggDiff : ∀ e ∈ s.pools, e.2.totalStaked = stakeSum s.txs e.1 - unstakeSum s.txs e.1

/-!  Basic lemmas about the JavaScript helpers and list bookkeeping. -/

theorem jsOr0_eq (q : ℚ) : jsOr0 q = q := by
  unfold jsOr0
  split <;> simp_all

theorem roundTo_mono {n : ℕ} {q r : ℚ} (h : q ≤ r) : roundTo n q ≤ roundTo n r := by
  unfold roundTo
  have h10 : (0 : ℚ) < 10 ^ n := by positivity
  have hmul : q * 10 ^ n ≤ r * 10 ^ n :=
    mul_le_mul_of_nonneg_right h (le_of_lt h10)
  have hround : round (q * 10 ^ n) ≤ round (r * 10 ^ n) := by
    rw [round_eq, round_eq]
    exact Int.floor_mono (by linarith)
  exact (div_le_div_right h10).mpr (by exact_mod_cast hround)

theorem roundTo_eq {n : ℕ} {q : ℚ} {k : ℤ} (h1 : (k : ℚ) ≤ q * 10 ^ n + 1/2)
    (h2 : q * 10 ^ n + 1/2 < k + 1) : roundTo n q = (k : ℚ) / 10 ^ n := by
  unfold roundTo
  have hk : round (q * 10 ^ n) = k := by
    rw [round_eq]
    exact Int.floor_eq_iff.mpr ⟨h1, by push_cast; linarith⟩
  rw [hk]

theorem roundTo_exact {n : ℕ} {q : ℚ} {k : ℤ} (h : q * 10 ^ n = (k : ℚ)) :
    roundTo n q = q := by
  unfold roundTo
  rw [h, round_intCast, ← h]
  have h10 : (10 : ℚ) ^ n ≠ 0 := by positivity
  field_simp

theorem refsTx_false_of {u : Transaction} {tid : ℕ}
    (h : ¬(u.type = "unstake" ∧ u.originalTransactionId = some tid)) :
    refsTx u tid = false := by
  by_cases h1 : u.type = "unstake"
  · by_cases h2 : u.originalTransactionId = some tid
    · exact absurd ⟨h1, h2⟩ h
    · simp [refsTx, beq_iff_eq, h2]
  · simp [refsTx, beq_iff_eq, h1]

theorem refsTx_true_iff {u : Transaction} {tid : ℕ} :
    refsTx u tid = true ↔ u.type = "unstake" ∧ u.originalTransactionId = some tid := by
  simp [refsTx, Bool.and_eq_true, beq_iff_eq]

theorem closedIn_append {txs : List Transaction} {a t : Transaction} :
    closedIn (txs ++ [a]) t = (closedIn txs t || refsTx a t.transactionId) := by
  simp [closedIn, List.any_append]

theorem sumAmt_append {l₁ l₂ : List Transaction} :
    sumAmt (l₁ ++ l₂) = sumAmt l₁ + sumAmt l₂ := by
  simp [sumAmt]

theorem sumAmt_filter_split (l : List Transaction) (p q : Transaction → Bool) :
    sumAmt (l.filter fun t => p t && !(q t)) + sumAmt (l.filter fun t => p t && q t)
      = sumAmt (l.filter p) := by
  induction l with
  | nil => simp [sumAmt]
  | cons a l ih =>
    by_cases hp : p a
    · by_cases hq : q a
      · simp only [List.filter_cons, hp, hq]
        simp only [Bool.and_true, Bool.and_false, Bool.not_true, if_true]
        simp [sumAmt] at ih ⊢
        linarith
      · simp only [List.filter_cons, hp, Bool.not_eq_true'] at *
        simp only [Bool.and_true, Bool.and_false, hq, Bool.not_false, if_true]
        simp [sumAmt, hq] at ih ⊢
        linarith
    · simp only [List.filter_cons]
      simp [hp, ih]

theorem length_filter_split (l : List Transaction) (p q : Transaction → Bool) :
    (l.filter fun t => p t && !(q t)).length + (l.filter fun t => p t && q t).length
      = (l.filter p).length := by
  induction l with
  | nil => simp
  | cons a l ih =>
    by_cases hp : p a
    · by_cases hq : q a
      · simp [List.filter_cons, hp, hq]
        omega
      · simp [List.filter_cons, hp, hq]
        omega
    · simp [List.filter_cons, hp]
      exact ih

theorem filter_id_unique {l : List Transaction} {st : Transaction} {tid : ℕ}
    (hnd : (l.map (fun t => t.transactionId)).Nodup)
    (hmem : st ∈ l) (hid : st.transactionId = tid) :
    l.filter (fun t => t.transactionId == tid) = [st] := by
  induction l with
  | nil => cases hmem
  | cons a l ih =>
    simp only [List.map_cons, List.nodup_cons] at hnd
    rcases List.mem_cons.mp hmem with h | h
    · subst h
      have hempty : l.filter (fun t => t.transactionId == tid) = [] := by
        rw [List.filter_eq_nil_iff]
        intro t ht
        simp only [beq_iff_eq]
        intro hteq
        exact hnd.1 (hid ▸ hteq ▸ List.mem_map_of_mem (fun t => t.transactionId) ht)
      simp [List.filter_cons, beq_iff_eq, hid, hempty]
    · have hane : a.transactionId ≠ tid := by
        intro haeq
        exact hnd.1 (haeq ▸ hid ▸ List.mem_map_of_mem (fun t => t.transactionId) h)
      have hbeq : (a.transactionId == tid) = false := by
        simp [beq_iff_eq, hane]
      simp only [List.filter_cons, hbeq]
      simp only [if_false, Bool.false_eq_true]
      exact ih hnd.2 h

theorem refCount_append {l : List Transaction} {a : Transaction} {tid : ℕ} :
    refCount (l ++ [a]) tid
      = refCount l tid + (if refsTx a tid then 1 else 0) := by
  unfold refCount
  rw [List.filter_append, List.length_append, List.filter_singleton]
  cases h : refsTx a tid <;> simp [h]

theorem refCount_eq_zero {l : List Transaction} {tid : ℕ}
    (h : ∀ u ∈ l, refsTx u tid = false) : refCount l tid = 0 := by
  unfold refCount
  rw [List.length_eq_zero, List.filter_eq_nil_iff]
  intro u hu
  simp [h u hu]

theorem lookupPool_mem {ps : List (ℕ × Pool)} {pid : ℕ} {p : Pool}
    (h : lookupPool ps pid = some p) : (pid, p) ∈ ps := by
  unfold lookupPool at h
  cases hf : ps.find? (fun e => e.1 == pid) with
  | none => rw [hf] at h; simp at h
  | some e =>
    rw [hf] at h
    simp only [Option.map_some', Option.some.injEq] at h
    have hm := List.mem_of_find?_eq_some hf
    have hp := List.find?_some hf
    simp only [beq_iff_eq] at hp
    have : e = (pid, p) := by
      cases e
      simp_all
    rwa [this] at hm

theorem mem_setPool {ps : List (ℕ × Pool)} {pid : ℕ} {p : Pool} {e : ℕ × Pool}
    (h : e ∈ setPool ps pid p) : e = (pid, p) ∨ (e ∈ ps ∧ e.1 ≠ pid) := by
  unfold setPool at h
  obtain ⟨a, ha, hae⟩ := List.mem_map.mp h
  by_cases hk : a.1 = pid
  · left
    rw [if_pos hk] at hae
    exact hae.symm
  · right
    rw [if_neg hk] at hae
    exact hae ▸ ⟨ha, hk⟩

theorem stakeFindPred_decode {tid uid : ℕ} {t : Transaction}
    (h : stakeFindPred tid uid t = true) :
    t.transactionId = tid ∧ t.type = "stake" ∧ t.userId = uid := by
  simp only [stakeFindPred, Bool.and_eq_true, beq_iff_eq] at h
  exact ⟨h.1.1, h.1.2, h.2⟩

theorem stakeTokens_ok {s : St} {pid : ℕ} {amt : ℚ} {uid : ℕ} {now : ℚ}
    {tx : Transaction} {p' : Pool} {s' : St}
    (h : stakeTokens s pid amt uid now = Except.ok (tx, p', s')) :
    ∃ pool, lookupPool s.pools pid = some pool ∧ 0 < amt ∧ pool.minStake ≤ amt ∧
      s.users.contains uid = true ∧
      tx = { transactionId := s.nextId
             originalTransactionId := none
             type := "stake"
             amount := amt
             timestamp := now
             userId := uid
             poolId := pid
             unlockTime :=
               if pool.lockPeriod = 0 then none
               else some (now + pool.lockPeriod * 86400000) } ∧
      p' = { pool with totalStaked := jsOr0 pool.totalStaked + amt } ∧
      s' = { s with
             txs := s.txs ++ [tx]
             pools := setPool s.pools pid p'
             nextId := s.nextId + 1 } := by
  unfold stakeTokens at h
  split at h
  · simp at h
  · rename_i hamt
    split at h
    · simp at h
    · rename_i pool hpool
      split at h
      · simp at h
      · rename_i hmin
        split at h
        · rename_i huser
          simp only [Except.ok.injEq, Prod.mk.injEq] at h
          obtain ⟨htx, hp', hs'⟩ := h
          refine ⟨pool, hpool, lt_of_not_le hamt, le_of_not_lt hmin, huser, ?_, ?_, ?_⟩
          · exact htx.symm
          · exact hp'.symm
          · rw [← hs', ← htx, ← hp']
        · simp at h

theorem unstakeTokens_ok {s : St} {tid uid : ℕ} {now : ℚ}
    {tx : Transaction} {p' : Pool} {s' : St}
    (h : unstakeTokens s tid uid now = Except.ok (tx, p', s')) :
    ∃ stakeTx pool,
      s.txs.find? (stakeFindPred tid uid) = some stakeTx ∧
      s.txs.find? (unstakeOwnedPred tid uid) = none ∧
      (∀ w, stakeTx.unlockTime = some w → w ≤ now) ∧
      lookupPool s.pools stakeTx.poolId = some pool ∧
      tx = { transactionId := s.nextId
             originalTransactionId := some tid
             type := "unstake"
             amount := stakeTx.amount
             timestamp := now
             userId := uid
             poolId := stakeTx.poolId
             unlockTime := none } ∧
      p' = { pool with totalStaked := max 0 (jsOr0 pool.totalStaked - stakeTx.amount) } ∧
      s' = { s with
             txs := s.txs ++ [tx]
             pools := setPool s.pools stakeTx.poolId p'
             nextId := s.nextId + 1 } := by
  unfold unstakeTokens at h
  split at h
  · simp at h
  · rename_i stakeTx hfind
    split at h
    · simp at h
    · rename_i hnone
      have hfin : unstakeFinish s tid stakeTx uid now = Except.ok (tx, p', s') ∧
          (∀ w, stakeTx.unlockTime = some w → w ≤ now) := by
        split at h
        · rename_i u hu
          split at h
          · simp at h
          · rename_i hlt
            exact ⟨h, by intro w hw; rw [hu] at hw; cases hw; exact le_of_not_lt hlt⟩
        · rename_i hu
          exact ⟨h, by intro w hw; rw [hu] at hw; cases hw⟩
      obtain ⟨hfin, hlock⟩ := hfin
      unfold unstakeFinish at hfin
      split at hfin
      · simp at hfin
      · rename_i pool hpool
        simp only [Except.ok.injEq, Prod.mk.injEq] at hfin
        obtain ⟨htx, hp', hs'⟩ := hfin
        refine ⟨stakeTx, pool, hfind, hnone, hlock, hpool, htx.symm, hp'.symm, ?_⟩
        rw [← hs', ← htx, ← hp']

theorem stakeSum_append {txs : List Transaction} {a : Transaction} {pid : ℕ} :
    stakeSum (txs ++ [a]) pid
      = stakeSum txs pid + (if isStakeFor pid a then a.amount else 0) := by
  unfold stakeSum
  rw [List.filter_append, sumAmt_append, List.filter_singleton]
  cases h : isStakeFor pid a <;> simp [h, sumAmt]

theorem unstakeSum_append {txs : List Transaction} {a : Transaction} {pid : ℕ} :
    unstakeSum (txs ++ [a]) pid
      = unstakeSum txs pid + (if isUnstakeFor pid a then a.amount else 0) := by
  unfold unstakeSum
  rw [List.filter_append, sumAmt_append, List.filter_singleton]
  cases h : isUnstakeFor pid a <;> simp [h, sumAmt]

theorem no_refs_nextId {s : St} (hw : Wf s) :
    ∀ u ∈ s.txs, refsTx u s.nextId = false := by
  intro u hu
  apply refsTx_false_of
  rintro ⟨hty, horig⟩
  obtain ⟨st, hstmem, -, horig', -⟩ := hw.unstakeRef u hu hty
  rw [horig] at horig'
  have hid : s.nextId = st.transactionId := by
    injection horig'
  have := hw.idsLt st hstmem
  omega

theorem openFilter_append_stake {txs : List Transaction} {a : Transaction} {pid : ℕ}
    (ha : a.type = "stake") (hfresh : ∀ u ∈ txs, refsTx u a.transactionId = false) :
    (txs ++ [a]).filter (fun t => openFor pid (txs ++ [a]) t)
      = txs.filter (fun t => openFor pid txs t)
          ++ (if isStakeFor pid a then [a] else []) := by
  rw [List.filter_append]
  congr 1
  · apply List.filter_congr
    intro t _
    unfold openFor
    rw [closedIn_append]
    have hra : refsTx a t.transactionId = false := by
      apply refsTx_false_of
      rintro ⟨h1, -⟩
      rw [ha] at h1
      exact absurd h1 (by decide)
    rw [hra, Bool.or_false]
  · rw [List.filter_singleton]
    have hclosed : closedIn (txs ++ [a]) a = false := by
      rw [closedIn_append]
      have h1 : closedIn txs a = false := by
        unfold closedIn
        rw [List.any_eq_false]
        intro u hu
        simp [hfresh u hu]
      have h2 : refsTx a a.transactionId = false := by
        apply refsTx_false_of
        rintro ⟨h1, -⟩
        rw [ha] at h1
        exact absurd h1 (by decide)
      rw [h1, h2]
      rfl
    unfold openFor
    rw [hclosed]
    cases h : isStakeFor pid a <;> simp [h]

theorem openSum_append_stake {txs : List Transaction} {a : Transaction} {pid : ℕ}
    (ha : a.type = "stake") (hfresh : ∀ u ∈ txs, refsTx u a.transactionId = false) :
    openSum (txs ++ [a]) pid
      = openSum txs pid + (if isStakeFor pid a then a.amount else 0) := by
  unfold openSum
  rw [openFilter_append_stake ha hfresh, sumAmt_append]
  cases h : isStakeFor pid a <;> simp [sumAmt]

theorem openCount_append_stake {txs : List Transaction} {a : Transaction} {pid : ℕ}
    (ha : a.type = "stake") (hfresh : ∀ u ∈ txs, refsTx u a.transactionId = false) :
    openCount (txs ++ [a]) pid
      = openCount txs pid + (if isStakeFor pid a then 1 else 0) := by
  unfold openCount
  rw [openFilter_append_stake ha hfresh, List.length_append]
  cases h : isStakeFor pid a <;> simp

theorem openFilter_append_unstake {txs : List Transaction} {utx : Transaction}
    {tid pid : ℕ}
    (huty : utx.type = "unstake") (huorig : utx.originalTransactionId = some tid) :
    (txs ++ [utx]).filter (fun t => openFor pid (txs ++ [utx]) t)
      = txs.filter (fun t => openFor pid txs t && !(t.transactionId == tid)) := by
  rw [List.filter_append]
  have h2 : [utx].filter (fun t => openFor pid (txs ++ [utx]) t) = [] := by
    rw [List.filter_singleton]
    have : isStakeFor pid utx = false := by
      simp [isStakeFor, beq_iff_eq, huty]
    simp [openFor, this]
  rw [h2, List.append_nil]
  apply List.filter_congr
  intro t _
  unfold openFor
  rw [closedIn_append]
  have hre : refsTx utx t.transactionId = (t.transactionId == tid) := by
    simp only [refsTx, huty, huorig]
    simp [beq_iff_eq, eq_comm]
  rw [hre, Bool.not_or, Bool.and_assoc]

theorem openSum_append_unstake {txs : List Transaction} {utx st : Transaction}
    {tid pid : ℕ}
    (huty : utx.type = "unstake") (huorig : utx.originalTransactionId = some tid)
    (hnd : (txs.map (fun t => t.transactionId)).Nodup)
    (hmem : st ∈ txs) (hid : st.transactionId = tid)
    (hnoref : ∀ u ∈ txs, refsTx u tid = false) :
    openSum (txs ++ [utx]) pid
      = openSum txs pid - (if isStakeFor pid st then st.amount else 0) := by
  unfold openSum
  rw [openFilter_append_unstake huty huorig]
  have hsplit := sumAmt_filter_split txs (fun t => openFor pid txs t)
    (fun t => t.transactionId == tid)
  have hone : txs.filter (fun t => openFor pid txs t && (t.transactionId == tid))
      = if isStakeFor pid st then [st] else [] := by
    rw [← List.filter_filter, filter_id_unique hnd hmem hid, List.filter_singleton]
    have hopen : openFor pid txs st = isStakeFor pid st := by
      unfold openFor
      have hcl : closedIn txs st = false := by
        unfold closedIn
        rw [List.any_eq_false]
        intro u hu
        simp [hid, hnoref u hu]
      rw [hcl]
      simp
    rw [hopen]
    cases h : isStakeFor pid st <;> simp [h]
  rw [hone] at hsplit
  cases h : isStakeFor pid st
  · simp only [h, Bool.false_eq_true, if_false] at hsplit ⊢
    have h0 : sumAmt ([] : List Transaction) = 0 := rfl
    rw [h0] at hsplit
    linarith
  · simp only [h, if_true] at hsplit ⊢
    have h1 : sumAmt [st] = st.amount := by simp [sumAmt]
    rw [h1] at hsplit
    linarith

theorem openCount_append_unstake {txs : List Transaction} {utx st : Transaction}
    {tid pid : ℕ}
    (huty : utx.type = "unstake") (huorig : utx.originalTransactionId = some tid)
    (hnd : (txs.map (fun t => t.transactionId)).Nodup)
    (hmem : st ∈ txs) (hid : st.transactionId = tid)
    (hnoref : ∀ u ∈ txs, refsTx u tid = false) :
    openCount txs pid
      = openCount (txs ++ [utx]) pid + (if isStakeFor pid st then 1 else 0) := by
  unfold openCount
  rw [openFilter_append_unstake huty huorig]
  have hsplit := length_filter_split txs (fun t => openFor pid txs t)
    (fun t => t.transactionId == tid)
  have hone : txs.filter (fun t => openFor pid txs t && (t.transactionId == tid))
      = if isStakeFor pid st then [st] else [] := by
    rw [← List.filter_filter, filter_id_unique hnd hmem hid, List.filter_singleton]
    have hopen : openFor pid txs st = isStakeFor pid st := by
      unfold openFor
      have hcl : closedIn txs st = false := by
        unfold closedIn
        rw [List.any_eq_false]
        intro u hu
        simp [hid, hnoref u hu]
      rw [hcl]
      simp
    rw [hopen]
    cases h : isStakeFor pid st <;> simp [h]
  rw [hone] at hsplit
  cases h : isStakeFor pid st
  · simp only [h, Bool.false_eq_true, if_false] at hsplit ⊢
    simp only [List.length_nil] at hsplit
    omega
  · simp only [h, if_true] at hsplit ⊢
    simp only [List.length_singleton] at hsplit
    omega

theorem amount_le_openSum {txs : List Transaction} {st : Transaction} {pid : ℕ}
    (hpos : ∀ t ∈ txs, 0 < t.amount) (hmem : st ∈ txs)
    (hopen : openFor pid txs st = true) : st.amount ≤ openSum txs pid := by
  unfold openSum sumAmt
  apply List.single_le_sum
  · intro x hx
    obtain ⟨t, ht, rfl⟩ := List.mem_map.mp hx
    exact le_of_lt (hpos t (List.mem_filter.mp ht).1)
  · exact List.mem_map_of_mem _ (List.mem_filter.mpr ⟨hmem, hopen⟩)

theorem no_refs_of_checkNone {s : St} (hw : Wf s) {tid uid : ℕ} {st : Transaction}
    (hst : s.txs.find? (stakeFindPred tid uid) = some st)
    (hnone : s.txs.find? (unstakeOwnedPred tid uid) = none) :
    ∀ u ∈ s.txs, refsTx u tid = false := by
  have hmem := List.mem_of_find?_eq_some hst
  obtain ⟨hid, hty, huid⟩ := stakeFindPred_decode (List.find?_some hst)
  intro u hu
  apply refsTx_false_of
  rintro ⟨huty, huorig⟩
  obtain ⟨st', hst'mem, hst'ty, horig, huserEq, -⟩ := hw.unstakeRef u hu huty
  have hsid : st'.transactionId = tid := by
    rw [huorig] at horig
    injection horig.symm
  have hsame : st' = st :=
    List.inj_on_of_nodup_map hw.idsNodup hst'mem hmem (by rw [hsid, hid])
  have huuid : u.userId = uid := by rw [← huserEq, hsame, huid]
  exact (List.find?_eq_none.mp hnone) u hu
    (by simp [unstakeOwnedPred, beq_iff_eq, huorig, huty, huuid])

theorem Wf_stakeSucc {s : St} {pid : ℕ} {amt : ℚ} {uid : ℕ} {now : ℚ}
    {tx : Transaction} {p' : Pool} {s' : St} (hw : Wf s)
    (h : stakeTokens s pid amt uid now = Except.ok (tx, p', s')) : Wf s' := by
  obtain ⟨pool, hpool, hamt, hmin, huser, htx, hp', hs'⟩ := stakeTokens_ok h
  have hpoolmem : (pid, pool) ∈ s.pools := lookupPool_mem hpool
  have htxid : tx.transactionId = s.nextId := by rw [htx]
  have htxty : tx.type = "stake" := by rw [htx]
  have htxpool : tx.poolId = pid := by rw [htx]
  have htxamt : tx.amount = amt := by rw [htx]
  have hfresh : ∀ u ∈ s.txs, refsTx u tx.transactionId = false := by
    rw [htxid]
    exact no_refs_nextId hw
  have hrefsfalse : ∀ tid2, refsTx tx tid2 = false := by
    intro tid2
    apply refsTx_false_of
    rintro ⟨h1, -⟩
    rw [htxty] at h1
    exact absurd h1 (by decide)
  have hstakefor : isStakeFor pid tx = true := by
    simp [isStakeFor, beq_iff_eq, htxty, htxpool]
  have hunstakefor : ∀ pid2, isUnstakeFor pid2 tx = false := by
    intro pid2
    simp [isUnstakeFor, beq_iff_eq, htxty]
  subst hs'
  refine ⟨?_, ?_, ?_, ?_, ?_, ?_, ?_⟩
  · intro t ht
    show t.transactionId < s.nextId + 1
    rcases List.mem_append.mp ht with h1 | h1
    · have := hw.idsLt t h1
      omega
    · rw [List.mem_singleton] at h1
      subst h1
      omega
  · show ((s.txs ++ [tx]).map (fun t => t.transactionId)).Nodup
    rw [List.map_append, List.nodup_append]
    refine ⟨hw.idsNodup, List.nodup_singleton _, ?_⟩
    intro x hx hy
    obtain ⟨t, ht, rfl⟩ := List.mem_map.mp hx
    rw [List.map_singleton, List.mem_singleton] at hy
    have := hw.idsLt t ht
    rw [hy, htxid] at this
    omega
  · intro t ht
    rcases List.mem_append.mp ht with h1 | h1
    · exact hw.amtPos t h1
    · rw [List.mem_singleton] at h1
      subst h1
      rw [htxamt]
      exact hamt
  · intro u hu huty
    rcases List.mem_append.mp hu with h1 | h1
    · obtain ⟨st, hstmem, hrest⟩ := hw.unstakeRef u h1 huty
      exact ⟨st, List.mem_append_left _ hstmem, hrest⟩
    · rw [List.mem_singleton] at h1
      subst h1
      rw [htxty] at huty
      exact absurd huty (by decide)
  · intro tid2
    show refCount (s.txs ++ [tx]) tid2 ≤ 1
    rw [refCount_append, hrefsfalse]
    simpa using hw.unstakeOnce tid2
  · intro e he
    have hosum : ∀ pid2, openSum (s.txs ++ [tx]) pid2
        = openSum s.txs pid2 + (if isStakeFor pid2 tx then tx.amount else 0) :=
      fun pid2 => openSum_append_stake htxty hfresh
    rcases mem_setPool he with he1 | ⟨he2, hne⟩
    · rw [he1]
      show p'.totalStaked = openSum (s.txs ++ [tx]) pid
      rw [hosum pid, hstakefor, if_pos rfl, htxamt]
      have hagg := hw.agg (pid, pool) hpoolmem
      rw [hp']
      show jsOr0 pool.totalStaked + amt = openSum s.txs pid + amt
      rw [jsOr0_eq]
      rw [hagg]
    · show e.2.totalStaked = openSum (s.txs ++ [tx]) e.1
      rw [hosum e.1]
      have hnostake : isStakeFor e.1 tx = false := by
        simp [isStakeFor, beq_iff_eq, htxpool]
        intro _
        omega
      rw [hnostake]
      simpa using hw.agg e he2
  · intro e he
    rcases mem_setPool he with he1 | ⟨he2, hne⟩
    · rw [he1]
      show p'.totalStaked
        = stakeSum (s.txs ++ [tx]) pid - unstakeSum (s.txs ++ [tx]) pid
      rw [stakeSum_append, unstakeSum_append, hstakefor, if_pos rfl, htxamt,
        hunstakefor pid]
      have hagg := hw.aggDiff (pid, pool) hpoolmem
      rw [hp']
      show jsOr0 pool.totalStaked + amt
        = stakeSum s.txs pid + amt - (unstakeSum s.txs pid + if False then tx.amount else 0)
      rw [jsOr0_eq]
      simp only [if_false]
      have : pool.totalStaked = stakeSum s.txs pid - unstakeSum s.txs pid := hagg
      linarith
    · show e.2.totalStaked
        = stakeSum (s.txs ++ [tx]) e.1 - unstakeSum (s.txs ++ [tx]) e.1
      rw [stakeSum_append, unstakeSum_append, hunstakefor e.1]
      have hnostake : isStakeFor e.1 tx = false := by
        simp [isStakeFor, beq_iff_eq, htxpool]
        intro _
        omega
      rw [hnostake]
      have hagg := hw.aggDiff e he2
      simp only [if_false, Bool.false_eq_true]
      linarith [hagg]

theorem Wf_unstakeSucc {s : St} {tid uid : ℕ} {now : ℚ}
    {tx : Transaction} {p' : Pool} {s' : St} (hw : Wf s)
    (h : unstakeTokens s tid uid now = Except.ok (tx, p', s')) : Wf s' := by
  obtain ⟨st, pool, hfind, hnone, hlock, hpool, htx, hp', hs'⟩ := unstakeTokens_ok h
  have hmem := List.mem_of_find?_eq_some hfind
  obtain ⟨hstid, hstty, hstuid⟩ := stakeFindPred_decode (List.find?_some hfind)
  have hnoref := no_refs_of_checkNone hw hfind hnone
  have hpoolmem : (st.poolId, pool) ∈ s.pools := lookupPool_mem hpool
  have htxid : tx.transactionId = s.nextId := by rw [htx]
  have htxty : tx.type = "unstake" := by rw [htx]
  have htxorig : tx.originalTransactionId = some tid := by rw [htx]
  have htxpool : tx.poolId = st.poolId := by rw [htx]
  have htxamt : tx.amount = st.amount := by rw [htx]
  have htxts : tx.timestamp = now := by rw [htx]
  have htxuid : tx.userId = uid := by rw [htx]
  have hstopen : openFor st.poolId s.txs st = true := by
    unfold openFor
    have hsf : isStakeFor st.poolId st = true := by
      simp [isStakeFor, beq_iff_eq, hstty]
    have hcl : closedIn s.txs st = false := by
      unfold closedIn
      rw [List.any_eq_false]
      intro u hu
      simp [hstid, hnoref u hu]
    rw [hsf, hcl]
    rfl
  have hbound : st.amount ≤ openSum s.txs st.poolId :=
    amount_le_openSum hw.amtPos hmem hstopen
  have haggP := hw.agg (st.poolId, pool) hpoolmem
  have hcollapse : max 0 (jsOr0 pool.totalStaked - st.amount)
      = pool.totalStaked - st.amount := by
    rw [jsOr0_eq]
    apply max_eq_right
    have : pool.totalStaked = openSum s.txs st.poolId := haggP
    linarith
  have hosum : ∀ pid2, openSum (s.txs ++ [tx]) pid2
      = openSum s.txs pid2 - (if isStakeFor pid2 st then st.amount else 0) :=
    fun pid2 =>
      openSum_append_unstake htxty htxorig hw.idsNodup hmem hstid hnoref
  have hstakeforP : isStakeFor st.poolId st = true := by
    simp [isStakeFor, beq_iff_eq, hstty]
  have hnostaketx : ∀ pid2, isStakeFor pid2 tx = false := by
    intro pid2
    simp [isStakeFor, beq_iff_eq, htxty]
  subst hs'
  refine ⟨?_, ?_, ?_, ?_, ?_, ?_, ?_⟩
  · intro t ht
    show t.transactionId < s.nextId + 1
    rcases List.mem_append.mp ht with h1 | h1
    · have := hw.idsLt t h1
      omega
    · rw [List.mem_singleton] at h1
      subst h1
      omega
  · show ((s.txs ++ [tx]).map (fun t => t.transactionId)).Nodup
    rw [List.map_append, List.nodup_append]
    refine ⟨hw.idsNodup, List.nodup_singleton _, ?_⟩
    intro x hx hy
    obtain ⟨t, ht, rfl⟩ := List.mem_map.mp hx
    rw [List.map_singleton, List.mem_singleton] at hy
    have := hw.idsLt t ht
    rw [hy, htxid] at this
    omega
  · intro t ht
    rcases List.mem_append.mp ht with h1 | h1
    · exact hw.amtPos t h1
    · rw [List.mem_singleton] at h1
      subst h1
      rw [htxamt]
      exact hw.amtPos st hmem
  · intro u hu huty
    rcases List.mem_append.mp hu with h1 | h1
    · obtain ⟨st', hstmem, hrest⟩ := hw.unstakeRef u h1 huty
      exact ⟨st', List.mem_append_left _ hstmem, hrest⟩
    · rw [List.mem_singleton] at h1
      subst h1
      refine ⟨st, List.mem_append_left _ hmem, hstty, ?_, ?_, ?_, ?_, ?_⟩
      · rw [htxorig, hstid]
      · rw [hstuid, htxuid]
      · rw [htxamt]
      · rw [htxpool]
      · intro w hw'
        rw [htxts]
        exact hlock w hw'
  · intro tid2
    show refCount (s.txs ++ [tx]) tid2 ≤ 1
    rw [refCount_append]
    by_cases heq : tid2 = tid
    · subst heq
      have h0 : refCount s.txs tid2 = 0 := refCount_eq_zero hnoref
      rw [h0]
      split <;> omega
    · have : refsTx tx tid2 = false := by
        apply refsTx_false_of
        rintro ⟨-, h2⟩
        rw [htxorig] at h2
        exact heq (by injection h2.symm)
      rw [this]
      simpa using hw.unstakeOnce tid2
  · intro e he
    rcases mem_setPool he with he1 | ⟨he2, hne⟩
    · rw [he1]
      show p'.totalStaked = openSum (s.txs ++ [tx]) st.poolId
      rw [hosum st.poolId, hstakeforP, if_pos rfl, hp']
      show max 0 (jsOr0 pool.totalStaked - st.amount)
        = openSum s.txs st.poolId - st.amount
      rw [hcollapse, haggP]
    · show e.2.totalStaked = openSum (s.txs ++ [tx]) e.1
      rw [hosum e.1]
      have hnf : isStakeFor e.1 st = false := by
        simp [isStakeFor, beq_iff_eq, hstty]
        omega
      rw [hnf]
      simpa using hw.agg e he2
  · intro e he
    rcases mem_setPool he with he1 | ⟨he2, hne⟩
    · rw [he1]
      show p'.totalStaked
        = stakeSum (s.txs ++ [tx]) st.poolId - unstakeSum (s.txs ++ [tx]) st.poolId
      have huf : isUnstakeFor st.poolId tx = true := by
        simp [isUnstakeFor, beq_iff_eq, htxty, htxpool]
      rw [stakeSum_append, unstakeSum_append, hnostaketx st.poolId, huf, if_pos rfl,
        htxamt, hp']
      show max 0 (jsOr0 pool.totalStaked - st.amount)
        = stakeSum s.txs st.poolId + (if False then tx.amount else 0)
            - (unstakeSum s.txs st.poolId + st.amount)
      rw [hcollapse]
      simp only [if_false]
      have hagg2 := hw.aggDiff (st.poolId, pool) hpoolmem
      have : pool.totalStaked = stakeSum s.txs st.poolId - unstakeSum s.txs st.poolId :=
        hagg2
      linarith
    · show e.2.totalStaked
        = stakeSum (s.txs ++ [tx]) e.1 - unstakeSum (s.txs ++ [tx]) e.1
      have huf : isUnstakeFor e.1 tx = false := by
        simp [isUnstakeFor, beq_iff_eq, htxty, htxpool]
        omega
      rw [stakeSum_append, unstakeSum_append, hnostaketx e.1, huf]
      have hagg2 := hw.aggDiff e he2
      simp only [if_false, Bool.false_eq_true]
      linarith [hagg2]

theorem Wf_applyOp {s : St} (hw : Wf s) (op : Op) : Wf (applyOp s op) := by
  cases op with
  | stakeOp pid amt uid now =>
    show Wf (match stakeTokens s pid amt uid now with
             | Except.ok (_, _, s') => s'
             | Except.error _ => s)
    cases h : stakeTokens s pid amt uid now with
    | ok r =>
      obtain ⟨tx, p', s'⟩ := r
      exact Wf_stakeSucc hw h
    | error e => exact hw
  | unstakeOp tid uid now =>
    show Wf (match unstakeTokens s tid uid now with
             | Except.ok (_, _, s') => s'
             | Except.error _ => s)
    cases h : unstakeTokens s tid uid now with
    | ok r =>
      obtain ⟨tx, p', s'⟩ := r
      exact Wf_unstakeSucc hw h
    | error e => exact hw

theorem Wf_runOps {s : St} (hw : Wf s) (ops : List Op) : Wf (runOps s ops) := by
  induction ops generalizing s with
  | nil => exact hw
  | cons op ops ih => exact ih (Wf_applyOp hw op)

theorem applyOp_stake_error {s : St} {pid : ℕ} {amt : ℚ} {uid : ℕ} {now : ℚ}
    {e : ApiErr} (h : stakeTokens s pid amt uid now = Except.error e) :
    applyOp s (Op.stakeOp pid amt uid now) = s := by
  show (match stakeTokens s pid amt uid now with
        | Except.ok (_, _, s') => s'
        | Except.error _ => s) = s
  rw [h]

theorem applyOp_unstake_error {s : St} {tid uid : ℕ} {now : ℚ} {e : ApiErr}
    (h : unstakeTokens s tid uid now = Except.error e) :
    applyOp s (Op.unstakeOp tid uid now) = s := by
  show (match unstakeTokens s tid uid now with
        | Except.ok (_, _, s') => s'
        | Except.error _ => s) = s
  rw [h]

theorem find?_append_left {α : Type} {p : α → Bool} {l₁ l₂ : List α} {a : α}
    (h : l₁.find? p = some a) : (l₁ ++ l₂).find? p = some a := by
  rw [List.find?_append, h]
  rfl

theorem find?_append_nil_left {α : Type} {p : α → Bool} {l : List α} {a : α}
    (h : l.find? p = none) (ha : p a = true) : (l ++ [a]).find? p = some a := by
  rw [List.find?_append, h]
  simp [List.find?_cons, ha]

theorem refUnstakeSum_eq {s : St} (hw : Wf s) (pid : ℕ) :
    refUnstakeSum s.txs pid = unstakeSum s.txs pid := by
  unfold refUnstakeSum unstakeSum
  congr 1
  apply List.filter_congr
  intro u hu
  by_cases huty : u.type = "unstake"
  · obtain ⟨st, hstmem, hstty, horig, -, -, hpid, -⟩ := hw.unstakeRef u hu huty
    have hl : (u.type == "unstake") = true := by simp [beq_iff_eq, huty]
    simp only [isUnstakeFor, hl, Bool.true_and]
    by_cases hupid : u.poolId = pid
    · have hany : s.txs.any (fun t => t.type == "stake" && t.poolId == pid &&
          u.originalTransactionId == some t.transactionId) = true := by
        rw [List.any_eq_true]
        refine ⟨st, hstmem, ?_⟩
        simp [beq_iff_eq, hstty, hpid, hupid, horig]
      rw [hany]
      simp [beq_iff_eq, hupid]
    · have hany : s.txs.any (fun t => t.type == "stake" && t.poolId == pid &&
          u.originalTransactionId == some t.transactionId) = false := by
        rw [List.any_eq_false]
        intro t ht
        simp only [Bool.and_eq_true, beq_iff_eq, not_and]
        rintro ⟨-, htpid⟩ htorig
        rw [horig] at htorig
        have : st = t :=
          List.inj_on_of_nodup_map hw.idsNodup hstmem ht (by injection htorig)
        exact hupid (by rw [← hpid, this, htpid])
      rw [hany]
      simp [beq_iff_eq, hupid]
  · have hl : (u.type == "unstake") = false := by simp [beq_iff_eq, huty]
    simp [isUnstakeFor, hl]

theorem noEarlyUnstake_of_Wf {s : St} (hw : Wf s) : noEarlyUnstake s.txs := by
  intro u hu st hst href w hwt
  obtain ⟨huty, horig⟩ := refsTx_true_iff.mp href
  obtain ⟨st', hst'mem, -, horig', -, -, -, hunl⟩ := hw.unstakeRef u hu huty
  rw [horig] at horig'
  have hsame : st' = st :=
    List.inj_on_of_nodup_map hw.idsNodup hst'mem hst (by injection horig'.symm)
  exact hunl w (by rw [hsame, hwt])

/-- C3: for every stake event with an existing pool, `calculateRewards`
returns `stakeAmount`, `elapsedDays = (end - start) / 86400000` rounded to
2 decimals (with `end` the referencing unstake's timestamp when closed and
the evaluation time otherwise), the pool `apy`, the reward
`amount * apy / 100 * (elapsedDays / 365)` rounded to 6 decimals, and the
closed flag; being a function into `RewardResult` it mutates no state. -/
theorem C3_calculateRewards_formula (s : St) (tid uid : ℕ) (now : ℚ)
    (st : Transaction) (p : Pool)
    (hs : s.txs.find? (stakeFindPred tid uid) = some st)
    (hp : lookupPool s.pools st.poolId = some p) :
    (∀ u, s.txs.find? (unstakeRefPred tid) = some u →
      calculateRewards s tid uid now = Except.ok
        { stakeAmount := st.amount
          stakingDurationDays := roundTo 2 ((u.timestamp - st.timestamp) / 86400000)
          apy := p.apy
          rewards := roundTo 6 (st.amount * p.apy / 100 *
            ((u.timestamp - st.timestamp) / 86400000 / 365))
          isUnstaked := true })
    ∧ (s.txs.find? (unstakeRefPred tid) = none →
      calculateRewards s tid uid now = Except.ok
        { stakeAmount := st.amount
          stakingDurationDays := roundTo 2 ((now - st.timestamp) / 86400000)
          apy := p.apy
          rewards := roundTo 6 (st.amount * p.apy / 100 *
            ((now - st.timestamp) / 86400000 / 365))
          isUnstaked := false }) := by
  constructor
  · intro u hu
    unfold calculateRewards
    simp only [hs, hp, hu]
    rfl
  · intro hu
    unfold calculateRewards
    simp only [hs, hp, hu]
    rfl

/-- C3 witness: the spec's concrete scenario — a 10-unit stake in a 7.8%
pool evaluated 365 days later yields 365 elapsed days and reward 0.78. -/
theorem C3_witness :
    calculateRewards
      ⟨[(1, ⟨"P", "basic", 39/5, 1, 0, 0, 10⟩)],
       [⟨0, none, "stake", 10, 0, 7, 1, none⟩], [7], 1⟩ 0 7 31536000000
      = Except.ok ⟨10, 365, 39/5, 39/50, false⟩ := by
  have h := (C3_calculateRewards_formula
    ⟨[(1, ⟨"P", "basic", 39/5, 1, 0, 0, 10⟩)],
     [⟨0, none, "stake", 10, 0, 7, 1, none⟩], [7], 1⟩ 0 7 31536000000
    ⟨0, none, "stake", 10, 0, 7, 1, none⟩ ⟨"P", "basic", 39/5, 1, 0, 0, 10⟩
    rfl rfl).2 rfl
  rw [h]
  simp only [Except.ok.injEq, RewardResult.mk.injEq]
  refine ⟨trivial, ?_, trivial, ?_, trivial⟩
  · rw [show ((31536000000 : ℚ) - 0) / 86400000 = 365 by norm_num]
    rw [roundTo_exact (k := 36500) (by norm_num)]
  · rw [show (10 : ℚ) * (39/5) / 100 * (((31536000000 : ℚ) - 0) / 86400000 / 365)
        = 39/50 by norm_num]
    rw [roundTo_exact (k := 780000) (by norm_num)]

/-- C10: a stake request by a user absent from the user store fails with
the user-not-found error even when the amount is valid, the pool exists and
the amount meets the pool minimum; the failed request changes nothing. -/
theorem C10_stake_user_not_found (s : St) (pid : ℕ) (amt : ℚ) (uid : ℕ) (now : ℚ)
    (p : Pool) (hamt : 0 < amt) (hp : lookupPool s.pools pid = some p)
    (hmin : p.minStake ≤ amt) (huser : s.users.contains uid = false) :
    stakeTokens s pid amt uid now = Except.error ApiErr.userNotFound ∧
    applyOp s (Op.stakeOp pid amt uid now) = s := by
  have herr : stakeTokens s pid amt uid now = Except.error ApiErr.userNotFound := by
    unfold stakeTokens
    simp only [hp]
    rw [if_neg (not_le.mpr hamt), if_neg (not_lt.mpr hmin)]
    have hnm : ¬ (s.users.contains uid = true) := by rw [huser]; simp
    rw [if_neg hnm]
  exact ⟨herr, applyOp_stake_error herr⟩

/-- C10 witness: a concrete valid stake request by the unknown user 9 is
rejected with the user-not-found error. -/
theorem C10_witness :
    stakeTokens ⟨[(1, ⟨"P", "basic", 5, 1, 0, 0, 0⟩)], [], [7], 0⟩ 1 10 9 100
      = Except.error ApiErr.userNotFound := by
  exact (C10_stake_user_not_found
    ⟨[(1, ⟨"P", "basic", 5, 1, 0, 0, 0⟩)], [], [7], 0⟩ 1 10 9 100
    ⟨"P", "basic", 5, 1, 0, 0, 0⟩ (by norm_num) rfl (by norm_num) rfl).1

/-- C6 counterexample: in pool `B` with `minStake = 1`, a stake request of
amount `0` — strictly below the minimum — fails with the generic
validation error, not with the below-minimum error naming the minimum, so
the below-minimum error is not raised for every amount below the
minimum. -/
theorem C6_counterexample :
    stakeTokens ⟨[(1, ⟨"B", "basic", 5, 1, 0, 50, 0⟩)], [], [7], 0⟩ 1 0 7 1000
        = Except.error ApiErr.validationErr ∧
      (0 : ℚ) < 1 ∧
      stakeTokens ⟨[(1, ⟨"B", "basic", 5, 1, 0, 50, 0⟩)], [], [7], 0⟩ 1 0 7 1000
        ≠ Except.error (ApiErr.belowMinimumStake 1) := by
  have h : stakeTokens ⟨[(1, ⟨"B", "basic", 5, 1, 0, 50, 0⟩)], [], [7], 0⟩ 1 0 7 1000
      = Except.error ApiErr.validationErr := by
    norm_num [stakeTokens]
  refine ⟨h, by norm_num, ?_⟩
  rw [h]
  simp

/-- C6 (amended): a stake request whose amount passes the validity check
(`0 < amount`) and is strictly below the pool minimum fails with the
below-minimum error naming the minimum, whatever the pool liquidity; no
ledger entry is created and the pool aggregates are unchanged. -/
theorem C6_below_minimum (s : St) (pid : ℕ) (amt : ℚ) (uid : ℕ) (now : ℚ) (p : Pool)
    (hamt : 0 < amt) (hp : lookupPool s.pools pid = some p)
    (hmin : amt < p.minStake) :
    stakeTokens s pid amt uid now = Except.error (ApiErr.belowMinimumStake p.minStake) ∧
    applyOp s (Op.stakeOp pid amt uid now) = s := by
  have herr : stakeTokens s pid amt uid now
      = Except.error (ApiErr.belowMinimumStake p.minStake) := by
    unfold stakeTokens
    simp only [hp]
    rw [if_neg (not_le.mpr hamt), if_pos hmin]
  exact ⟨herr, applyOp_stake_error herr⟩

/-- C6 witness: the spec's rejection scenario — staking 0.5 in pool `B`
with minimum 1 fails with the below-minimum error naming 1, and liquidity
50 does not help. -/
theorem C6_witness :
    stakeTokens ⟨[(1, ⟨"B", "basic", 5, 1, 0, 50, 0⟩)], [], [7], 0⟩ 1 (1/2) 7 1000
      = Except.error (ApiErr.belowMinimumStake 1) := by
  exact (C6_below_minimum
    ⟨[(1, ⟨"B", "basic", 5, 1, 0, 50, 0⟩)], [], [7], 0⟩ 1 (1/2) 7 1000
    ⟨"B", "basic", 5, 1, 0, 50, 0⟩ (by norm_num) rfl (by norm_num)).1

/-- C7 counterexample: APY `0` is present and non-negative, yet
`createPool` rejects the config with the validation error, because the
required-field check uses JS truthiness (`!apy`). -/
theorem C7_counterexample :
    createPool ⟨some "A", some "basic", some 0, none, none⟩
      = Except.error ApiErr.validationErr := by
  rfl

/-- C7 (amended): `createPool` fails with the validation error exactly when
name, type or APY is missing or falsy (absent field, empty string, or zero
APY); any present nonzero APY is accepted; on success it applies the
defaults `minStake = 0.1` and `lockPeriod = 0` when those fields are
absent (or zero, by the same truthiness) and initializes `totalStaked = 0`
and `liquidity = 0` — the pool document has no staker-count field to
initialize. -/
theorem C7_createPool_spec (c : PoolConfig) :
    (∀ nm ty ap, c.name = some nm → c.type = some ty → c.apy = some ap →
      nm ≠ "" → ty ≠ "" → ap ≠ 0 →
      createPool c = Except.ok
        { name := nm, type := ty, apy := ap,
          minStake := jsOrDefault c.minStake (1/10),
          lockPeriod := jsOrDefault c.lockPeriod 0,
          liquidity := 0, totalStaked := 0 }) ∧
    ((c.name = none ∨ c.type = none ∨ c.apy = none ∨
        c.name = some "" ∨ c.type = some "" ∨ c.apy = some 0) →
      createPool c = Except.error ApiErr.validationErr) ∧
    (c.minStake = none → jsOrDefault c.minStake (1/10) = 1/10) ∧
    (c.lockPeriod = none → jsOrDefault c.lockPeriod 0 = 0) := by
  refine ⟨?_, ?_, ?_, ?_⟩
  · intro nm ty ap hn ht ha hn0 ht0 ha0
    unfold createPool
    simp only [hn, ht, ha]
    rw [if_neg]
    push_neg
    exact ⟨hn0, ht0, ha0⟩
  · intro hcase
    unfold createPool
    rcases hcase with h | h | h | h | h | h <;> rw [h] <;>
      first
        | rfl
        | (cases hn : c.name <;> cases ht : c.type <;> cases ha : c.apy <;>
            simp_all <;> rw [if_pos] <;> simp)
  · intro h
    rw [h]
    rfl
  · intro h
    rw [h]
    rfl

/-- C7 witness: a config with all required fields present and nonzero APY
creates the pool with defaulted minimum stake and lock period and zeroed
aggregates. -/
theorem C7_witness :
    createPool ⟨some "A", some "basic", some 5, none, none⟩
      = Except.ok ⟨"A", "basic", 5, 1/10, 0, 0, 0⟩ := by
  have h := (C7_createPool_spec ⟨some "A", some "basic", some 5, none, none⟩).1
    "A" "basic" 5 rfl rfl rfl (by decide) (by decide) (by norm_num)
  rw [h]
  rfl

theorem Wf_noTxs {pools : List (ℕ × Pool)} {users : List ℕ} {n : ℕ}
    (hz : ∀ e ∈ pools, e.2.totalStaked = 0) : Wf ⟨pools, [], users, n⟩ := by
  refine ⟨?_, ?_, ?_, ?_, ?_, ?_, ?_⟩
  · intro t ht
    exact absurd ht (List.not_mem_nil t)
  · simp
  · intro t ht
    exact absurd ht (List.not_mem_nil t)
  · intro u hu
    exact absurd hu (List.not_mem_nil u)
  · intro tid
    rw [refCount_eq_zero (fun u hu => absurd hu (List.not_mem_nil u))]
    omega
  · intro e he
    rw [hz e he]
    simp [openSum, sumAmt]
  · intro e he
    rw [hz e he]
    simp [stakeSum, unstakeSum, sumAmt]

theorem Wf_oneStake {pid : ℕ} {p : Pool} {t : Transaction} {users : List ℕ} {n : ℕ}
    (hty : t.type = "stake") (hamt : 0 < t.amount) (hpid : t.poolId = pid)
    (hagg : p.totalStaked = t.amount) (hid : t.transactionId < n) :
    Wf ⟨[(pid, p)], [t], users, n⟩ := by
  have hrf : ∀ tid2, refsTx t tid2 = false := fun tid2 => refsTx_false_of (by
    rintro ⟨h1, -⟩
    rw [hty] at h1
    exact absurd h1 (by decide))
  refine ⟨?_, ?_, ?_, ?_, ?_, ?_, ?_⟩
  · intro u hu
    rw [List.mem_singleton] at hu
    subst hu
    exact hid
  · simp
  · intro u hu
    rw [List.mem_singleton] at hu
    subst hu
    exact hamt
  · intro u hu huty
    rw [List.mem_singleton] at hu
    subst hu
    rw [hty] at huty
    exact absurd huty (by decide)
  · intro tid2
    rw [refCount_eq_zero (fun u hu => by
      rw [List.mem_singleton] at hu
      subst hu
      exact hrf tid2)]
    omega
  · intro e he
    rw [List.mem_singleton] at he
    subst he
    show p.totalStaked = openSum [t] pid
    have hopen : openFor pid [t] t = true := by
      unfold openFor closedIn
      have h1 : isStakeFor pid t = true := by
        simp [isStakeFor, beq_iff_eq, hty, hpid]
      have h2 : [t].any (fun u => refsTx u t.transactionId) = false := by
        simp [hrf]
      rw [h1, h2]
      rfl
    have : openSum [t] pid = t.amount := by
      unfold openSum sumAmt
      simp [hopen]
    rw [this, hagg]
  · intro e he
    rw [List.mem_singleton] at he
    subst he
    show p.totalStaked = stakeSum [t] pid - unstakeSum [t] pid
    have h1 : stakeSum [t] pid = t.amount := by
      unfold stakeSum sumAmt
      have : isStakeFor pid t = true := by
        simp [isStakeFor, beq_iff_eq, hty, hpid]
      simp [this]
    have h2 : unstakeSum [t] pid = 0 := by
      unfold unstakeSum sumAmt
      have : isUnstakeFor pid t = false := by
        simp [isUnstakeFor, beq_iff_eq, hty]
      simp [this]
    rw [h1, h2, hagg]
    ring

/-- C8 counterexample: the amount check of `depositToPool` /
`withdrawFromPool` is `isNaN(amount) || amount <= 0`; the value
`Infinity`, which is not finite, passes the check (it is neither NaN nor
`<= 0`), so a non-finite amount is not rejected with the validation error
as the claim states (`NaN` and non-positive finite values are). -/
theorem C8_counterexample :
    jsAmountInvalid JNum.inf = false ∧ jsIsFinite JNum.inf = false ∧
      jsAmountInvalid JNum.nan = true ∧ jsAmountInvalid (JNum.fin 0) = true := by
  refine ⟨rfl, rfl, rfl, ?_⟩
  simp [jsAmountInvalid, jsLe, jsIsNaN]

/-- C8 (amended): a deposit or withdraw amount that is NaN or `≤ 0` fails
with the validation error (a non-finite `Infinity` amount is not
rejected); a withdraw fails with the insufficient-liquidity error exactly
when `amount > pool.liquidity`, withdrawing exactly the available
liquidity succeeds; otherwise liquidity is adjusted by `± amount` and
every other pool field — in particular `totalStaked` — is unchanged. -/
theorem C8_deposit_withdraw (s : St) (pid : ℕ) (amt : ℚ) (uid : ℕ) (now : ℚ)
    (p : Pool) (hp : lookupPool s.pools pid = some p) :
    (amt ≤ 0 →
      depositToPool s pid amt uid now = Except.error ApiErr.validationErr ∧
      withdrawFromPool s pid amt uid now = Except.error ApiErr.validationErr) ∧
    (0 < amt →
      (∃ tx s', depositToPool s pid amt uid now
          = Except.ok (tx, { p with liquidity := p.liquidity + amt }, s')) ∧
      (p.liquidity < amt →
        withdrawFromPool s pid amt uid now = Except.error ApiErr.insufficientLiquidity) ∧
      (amt ≤ p.liquidity →
        ∃ tx s', withdrawFromPool s pid amt uid now
          = Except.ok (tx, { p with liquidity := p.liquidity - amt }, s'))) := by
  constructor
  · intro h
    constructor
    · unfold depositToPool
      rw [if_pos h]
    · unfold withdrawFromPool
      rw [if_pos h]
  · intro h
    refine ⟨?_, ?_, ?_⟩
    · unfold depositToPool
      rw [if_neg (not_le.mpr h)]
      simp only [hp]
      exact ⟨_, _, rfl⟩
    · intro hl
      unfold withdrawFromPool
      rw [if_neg (not_le.mpr h)]
      simp only [hp]
      rw [if_pos hl]
    · intro hl
      unfold withdrawFromPool
      rw [if_neg (not_le.mpr h)]
      simp only [hp]
      rw [if_neg (not_lt.mpr hl)]
      exact ⟨_, _, rfl⟩

/-- C8 witness: withdrawing exactly the available liquidity (10 of 10)
succeeds and leaves liquidity 0 with `totalStaked` untouched at 3. -/
theorem C8_witness :
    ∃ tx s', withdrawFromPool
        ⟨[(1, ⟨"P", "basic", 5, 1, 0, 10, 3⟩)], [], [7], 0⟩ 1 10 7 99
      = Except.ok (tx, ⟨"P", "basic", 5, 1, 0, 0, 3⟩, s') := by
  obtain ⟨tx, s', h⟩ := ((C8_deposit_withdraw
    ⟨[(1, ⟨"P", "basic", 5, 1, 0, 10, 3⟩)], [], [7], 0⟩ 1 10 7 99
    ⟨"P", "basic", 5, 1, 0, 10, 3⟩ rfl).2 (by norm_num)).2.2 (by norm_num)
  refine ⟨tx, s', ?_⟩
  rw [h]
  norm_num

/-- C5: for a stake with `unlockTime` set that is found, owned and not yet
unstaked, the unstake attempt is rejected with the still-locked error
carrying the unlock time exactly when `now < unlockTime` (strict), and is
admitted when `now` equals or exceeds it; moreover in every state reachable
by stake/unstake requests no unstake event is appended before its stake's
unlock time. -/
theorem C5_lock_enforcement (s : St) (tid uid : ℕ) (now : ℚ) (st : Transaction)
    (u : ℚ) (p : Pool) (hw : Wf s)
    (hs : s.txs.find? (stakeFindPred tid uid) = some st)
    (hnone : s.txs.find? (unstakeOwnedPred tid uid) = none)
    (hu : st.unlockTime = some u)
    (hp : lookupPool s.pools st.poolId = some p) :
    (unstakeTokens s tid uid now = Except.error (ApiErr.stillLocked u) ↔ now < u) ∧
    (u ≤ now → ∃ tx p' s', unstakeTokens s tid uid now = Except.ok (tx, p', s')) ∧
    (∀ ops, noEarlyUnstake (runOps s ops).txs) := by
  have heval : unstakeTokens s tid uid now =
      (if now < u then Except.error (ApiErr.stillLocked u)
       else unstakeFinish s tid st uid now) := by
    unfold unstakeTokens
    simp only [hs, hnone, hu]
  have hfin : ∃ tx p' s', unstakeFinish s tid st uid now = Except.ok (tx, p', s') := by
    unfold unstakeFinish
    simp only [hp]
    exact ⟨_, _, _, rfl⟩
  obtain ⟨tx, p', s', hfin⟩ := hfin
  refine ⟨⟨?_, ?_⟩, ?_, ?_⟩
  · intro h
    by_contra hlt
    rw [heval, if_neg hlt, hfin] at h
    exact absurd h (by simp)
  · intro h
    rw [heval, if_pos h]
  · intro h
    rw [heval, if_neg (not_lt.mpr h)]
    exact ⟨tx, p', s', hfin⟩
  · intro ops
    exact noEarlyUnstake_of_Wf (Wf_runOps hw ops)

/-- C5 witness: the spec's lock scenario — a 5-unit stake in a 30-day lock
pool (unlock at 2592000000 ms) cannot be unstaked at day 10 (864000000 ms):
the attempt fails with the still-locked error carrying the unlock time. -/
theorem C5_witness :
    unstakeTokens ⟨[(1, ⟨"L", "lock", 5, 1, 30, 0, 5⟩)],
        [⟨0, none, "stake", 5, 0, 7, 1, some 2592000000⟩], [7], 1⟩ 0 7 864000000
      = Except.error (ApiErr.stillLocked 2592000000) := by
  exact (C5_lock_enforcement
    ⟨[(1, ⟨"L", "lock", 5, 1, 30, 0, 5⟩)],
     [⟨0, none, "stake", 5, 0, 7, 1, some 2592000000⟩], [7], 1⟩ 0 7 864000000
    ⟨0, none, "stake", 5, 0, 7, 1, some 2592000000⟩ 2592000000
    ⟨"L", "lock", 5, 1, 30, 0, 5⟩
    (Wf_oneStake rfl (by norm_num) rfl rfl (by norm_num))
    rfl rfl rfl rfl).1.mpr (by norm_num)

/-- C4: after a successful unstake of a stake transaction, a second unstake
call on the same transaction id fails with the already-unstaked error, the
failed call appends no event and changes no pool aggregate, exactly one
unstake event references the stake, and in every reachable state at most
one unstake event references any given stake. -/
theorem C4_at_most_once (s : St) (tid uid : ℕ) (now now' : ℚ)
    (tx : Transaction) (p' : Pool) (s' : St) (hw : Wf s)
    (h1 : unstakeTokens s tid uid now = Except.ok (tx, p', s')) :
    unstakeTokens s' tid uid now' = Except.error ApiErr.alreadyUnstaked ∧
    applyOp s' (Op.unstakeOp tid uid now') = s' ∧
    refCount s'.txs tid = 1 ∧
    (∀ ops tid2, refCount (runOps s' ops).txs tid2 ≤ 1) := by
  have hwf' : Wf s' := Wf_unstakeSucc hw h1
  obtain ⟨st, pool, hfind, hnone, hlock, hpool, htx, hp', hs'⟩ := unstakeTokens_ok h1
  have hnoref := no_refs_of_checkNone hw hfind hnone
  have htxty : tx.type = "unstake" := by rw [htx]
  have htxorig : tx.originalTransactionId = some tid := by rw [htx]
  have htxuid : tx.userId = uid := by rw [htx]
  have htxslist : s'.txs = s.txs ++ [tx] := by rw [hs']
  have herr : unstakeTokens s' tid uid now' = Except.error ApiErr.alreadyUnstaked := by
    unfold unstakeTokens
    have hf1 : s'.txs.find? (stakeFindPred tid uid) = some st := by
      rw [htxslist]
      exact find?_append_left hfind
    have hf2 : s'.txs.find? (unstakeOwnedPred tid uid) = some tx := by
      rw [htxslist]
      exact find?_append_nil_left hnone
        (by simp [unstakeOwnedPred, beq_iff_eq, htxorig, htxty, htxuid])
    simp only [hf1, hf2]
  refine ⟨herr, applyOp_unstake_error herr, ?_, ?_⟩
  · rw [htxslist, refCount_append, refCount_eq_zero hnoref,
      refsTx_true_iff.mpr ⟨htxty, htxorig⟩]
    rfl
  · intro ops tid2
    exact (Wf_runOps hwf' ops).unstakeOnce tid2

/-- C4 witness: after unstaking the 5-unit stake (transaction 0) of a
no-lock pool, a second unstake of transaction 0 fails with the
already-unstaked error. -/
theorem C4_witness :
    unstakeTokens ⟨[(1, ⟨"P", "basic", 5, 1, 0, 0, 0⟩)],
        [⟨0, none, "stake", 5, 0, 7, 1, none⟩,
         ⟨1, some 0, "unstake", 5, 100, 7, 1, none⟩], [7], 2⟩ 0 7 200
      = Except.error ApiErr.alreadyUnstaked := by
  have h1 : unstakeTokens ⟨[(1, ⟨"P", "basic", 5, 1, 0, 0, 5⟩)],
      [⟨0, none, "stake", 5, 0, 7, 1, none⟩], [7], 1⟩ 0 7 100
      = Except.ok (⟨1, some 0, "unstake", 5, 100, 7, 1, none⟩,
          ⟨"P", "basic", 5, 1, 0, 0, 0⟩,
          ⟨[(1, ⟨"P", "basic", 5, 1, 0, 0, 0⟩)],
           [⟨0, none, "stake", 5, 0, 7, 1, none⟩,
            ⟨1, some 0, "unstake", 5, 100, 7, 1, none⟩], [7], 2⟩) := by
    unfold unstakeTokens unstakeFinish
    norm_num [lookupPool, setPool, List.find?, stakeFindPred, unstakeOwnedPred, jsOr0]
  exact (C4_at_most_once
    ⟨[(1, ⟨"P", "basic", 5, 1, 0, 0, 5⟩)],
     [⟨0, none, "stake", 5, 0, 7, 1, none⟩], [7], 1⟩ 0 7 100 200
    ⟨1, some 0, "unstake", 5, 100, 7, 1, none⟩
    ⟨"P", "basic", 5, 1, 0, 0, 0⟩
    ⟨[(1, ⟨"P", "basic", 5, 1, 0, 0, 0⟩)],
     [⟨0, none, "stake", 5, 0, 7, 1, none⟩,
      ⟨1, some 0, "unstake", 5, 100, 7, 1, none⟩], [7], 2⟩
    (Wf_oneStake rfl (by norm_num) rfl rfl (by norm_num)) h1).1

/-- C1 counterexample: after two admitted stakes (amounts 10 and 20) on a
pool with `apy = 7`, `minStake = 3`, `lockPeriod = 0`, `liquidity = 11`,
the ledger has 2 open stake events, but no attribute of the resulting pool
document equals 2: the schema has no staker count and the stake handler
updates only `totalStaked`, so `pool.stakerCount` does not exist, let alone
get incremented per admitted stake. -/
theorem C1_counterexample :
    runOps ⟨[(1, ⟨"A", "basic", 7, 3, 0, 11, 0⟩)], [], [7], 0⟩
        [Op.stakeOp 1 10 7 100, Op.stakeOp 1 20 7 200]
      = ⟨[(1, ⟨"A", "basic", 7, 3, 0, 11, 30⟩)],
         [⟨0, none, "stake", 10, 100, 7, 1, none⟩,
          ⟨1, none, "stake", 20, 200, 7, 1, none⟩], [7], 2⟩ ∧
    openCount [⟨0, none, "stake", 10, 100, 7, 1, none⟩,
               ⟨1, none, "stake", 20, 200, 7, 1, none⟩] 1 = 2 ∧
    poolNumFields ⟨"A", "basic", 7, 3, 0, 11, 30⟩ = [7, 3, 0, 11, 30] ∧
    (2 : ℚ) ∉ poolNumFields ⟨"A", "basic", 7, 3, 0, 11, 30⟩ := by
  have e1 : stakeTokens ⟨[(1, ⟨"A", "basic", 7, 3, 0, 11, 0⟩)], [], [7], 0⟩ 1 10 7 100
      = Except.ok (⟨0, none, "stake", 10, 100, 7, 1, none⟩,
          ⟨"A", "basic", 7, 3, 0, 11, 10⟩,
          ⟨[(1, ⟨"A", "basic", 7, 3, 0, 11, 10⟩)],
           [⟨0, none, "stake", 10, 100, 7, 1, none⟩], [7], 1⟩) := by
    unfold stakeTokens
    norm_num [lookupPool, setPool, List.find?, jsOr0]
  have e2 : stakeTokens ⟨[(1, ⟨"A", "basic", 7, 3, 0, 11, 10⟩)],
      [⟨0, none, "stake", 10, 100, 7, 1, none⟩], [7], 1⟩ 1 20 7 200
      = Except.ok (⟨1, none, "stake", 20, 200, 7, 1, none⟩,
          ⟨"A", "basic", 7, 3, 0, 11, 30⟩,
          ⟨[(1, ⟨"A", "basic", 7, 3, 0, 11, 30⟩)],
           [⟨0, none, "stake", 10, 100, 7, 1, none⟩,
            ⟨1, none, "stake", 20, 200, 7, 1, none⟩], [7], 2⟩) := by
    unfold stakeTokens
    norm_num [lookupPool, setPool, List.find?, jsOr0]
  refine ⟨?_, rfl, rfl, ?_⟩
  · show applyOp (applyOp ⟨[(1, ⟨"A", "basic", 7, 3, 0, 11, 0⟩)], [], [7], 0⟩
        (Op.stakeOp 1 10 7 100)) (Op.stakeOp 1 20 7 200) = _
    have a1 : applyOp ⟨[(1, ⟨"A", "basic", 7, 3, 0, 11, 0⟩)], [], [7], 0⟩
        (Op.stakeOp 1 10 7 100)
        = ⟨[(1, ⟨"A", "basic", 7, 3, 0, 11, 10⟩)],
           [⟨0, none, "stake", 10, 100, 7, 1, none⟩], [7], 1⟩ := by
      show (match stakeTokens ⟨[(1, ⟨"A", "basic", 7, 3, 0, 11, 0⟩)], [], [7], 0⟩
              1 10 7 100 with
            | Except.ok (_, _, s') => s'
            | Except.error _ => ⟨[(1, ⟨"A", "basic", 7, 3, 0, 11, 0⟩)], [], [7], 0⟩) = _
      rw [e1]
    rw [a1]
    show (match stakeTokens ⟨[(1, ⟨"A", "basic", 7, 3, 0, 11, 10⟩)],
            [⟨0, none, "stake", 10, 100, 7, 1, none⟩], [7], 1⟩ 1 20 7 200 with
          | Except.ok (_, _, s') => s'
          | Except.error _ => ⟨[(1, ⟨"A", "basic", 7, 3, 0, 11, 10⟩)],
              [⟨0, none, "stake", 10, 100, 7, 1, none⟩], [7], 1⟩) = _
    rw [e2]
  · norm_num [poolNumFields]

/-- C1 (amended): the pool document has no staker-count field; an admitted
stake updates only `totalStaked` (adding the amount) and an admitted
unstake updates only `totalStaked` (subtracting the original stake amount,
floored at 0); the number of stake events without a referencing unstake
event — the quantity the spec calls `stakerCount` — is derivable from the
ledger, increasing by 1 per admitted stake and decreasing by 1 per
admitted unstake, but it is not stored on the pool. -/
theorem C1_no_staker_count (s : St) (hw : Wf s) :
    (∀ pid amt uid now tx p' s' p,
       stakeTokens s pid amt uid now = Except.ok (tx, p', s') →
       lookupPool s.pools pid = some p →
       p' = { p with totalStaked := p.totalStaked + amt } ∧
       openCount s'.txs pid = openCount s.txs pid + 1) ∧
    (∀ tid uid now tx p' s' st p,
       unstakeTokens s tid uid now = Except.ok (tx, p', s') →
       s.txs.find? (stakeFindPred tid uid) = some st →
       lookupPool s.pools st.poolId = some p →
       p' = { p with totalStaked := max 0 (p.totalStaked - st.amount) } ∧
       openCount s.txs st.poolId = openCount s'.txs st.poolId + 1) := by
  constructor
  · intro pid amt uid now tx p' s' p hok hp
    obtain ⟨pool, hpool, hamt, hmin, huser, htx, hp', hs'⟩ := stakeTokens_ok hok
    have hpe : pool = p := by
      rw [hpool] at hp
      injection hp
    subst hpe
    have htxty : tx.type = "stake" := by rw [htx]
    have htxpool : tx.poolId = pid := by rw [htx]
    have htxid : tx.transactionId = s.nextId := by rw [htx]
    have hfresh : ∀ u ∈ s.txs, refsTx u tx.transactionId = false := by
      rw [htxid]
      exact no_refs_nextId hw
    have hsf : isStakeFor pid tx = true := by
      simp [isStakeFor, beq_iff_eq, htxty, htxpool]
    constructor
    · rw [hp', jsOr0_eq]
    · rw [hs']
      show openCount (s.txs ++ [tx]) pid = openCount s.txs pid + 1
      rw [openCount_append_stake htxty hfresh, hsf]
      simp
  · intro tid uid now tx p' s' st p hok hfind hp
    obtain ⟨st', pool, hfind', hnone, hlock, hpool, htx, hp', hs'⟩ := unstakeTokens_ok hok
    have hste : st = st' := by
      rw [hfind'] at hfind
      injection hfind.symm
    subst hste
    have hpe : p = pool := by
      rw [hpool] at hp
      injection hp.symm
    subst hpe
    obtain ⟨hstid, hstty, hstuid⟩ := stakeFindPred_decode (List.find?_some hfind)
    have hmem := List.mem_of_find?_eq_some hfind
    have hnoref := no_refs_of_checkNone hw hfind hnone
    have htxty : tx.type = "unstake" := by rw [htx]
    have htxorig : tx.originalTransactionId = some tid := by rw [htx]
    have hsf : isStakeFor st.poolId st = true := by
      simp [isStakeFor, beq_iff_eq, hstty]
    constructor
    · rw [hp', jsOr0_eq]
    · rw [hs']
      show openCount s.txs st.poolId = openCount (s.txs ++ [tx]) st.poolId + 1
      rw [openCount_append_unstake htxty htxorig hw.idsNodup hmem hstid hnoref, hsf]
      simp

/-- C1 witness: from a fresh pool and empty ledger, one admitted stake of
10 raises the open-stake count from 0 to 1. -/
theorem C1_witness :
    openCount [⟨0, none, "stake", 10, 100, 7, 1, none⟩] 1 = 1 := by
  have e1 : stakeTokens ⟨[(1, ⟨"A", "basic", 7, 3, 0, 11, 0⟩)], [], [7], 0⟩ 1 10 7 100
      = Except.ok (⟨0, none, "stake", 10, 100, 7, 1, none⟩,
          ⟨"A", "basic", 7, 3, 0, 11, 10⟩,
          ⟨[(1, ⟨"A", "basic", 7, 3, 0, 11, 10⟩)],
           [⟨0, none, "stake", 10, 100, 7, 1, none⟩], [7], 1⟩) := by
    unfold stakeTokens
    norm_num [lookupPool, setPool, List.find?, jsOr0]
  have h := ((C1_no_staker_count ⟨[(1, ⟨"A", "basic", 7, 3, 0, 11, 0⟩)], [], [7], 0⟩
      (Wf_noTxs (by
        intro e he
        rw [List.mem_singleton] at he
        subst he
        rfl))).1
      1 10 7 100 ⟨0, none, "stake", 10, 100, 7, 1, none⟩
      ⟨"A", "basic", 7, 3, 0, 11, 10⟩
      ⟨[(1, ⟨"A", "basic", 7, 3, 0, 11, 10⟩)],
       [⟨0, none, "stake", 10, 100, 7, 1, none⟩], [7], 1⟩
      ⟨"A", "basic", 7, 3, 0, 11, 0⟩ e1 rfl)
  exact h.2

/-- C2: starting from any well-formed state, after any sequence of
stake/unstake requests every pool's `totalStaked` equals the sum of the
amounts of its stake events minus the sum of the amounts of the unstake
events referencing those stakes; per operation, an admitted stake adds its
amount to `totalStaked` and an admitted unstake subtracts the original
stake amount, with the `Math.max(0, ..)` floor never below zero and in
fact exact. -/
theorem C2_totalStaked_invariant (s0 : St) (hw : Wf s0) :
    (∀ ops : List Op, ∀ e ∈ (runOps s0 ops).pools,
       e.2.totalStaked
         = stakeSum (runOps s0 ops).txs e.1 - refUnstakeSum (runOps s0 ops).txs e.1) ∧
    (∀ pid amt uid now tx p' s' p,
       stakeTokens s0 pid amt uid now = Except.ok (tx, p', s') →
       lookupPool s0.pools pid = some p → p'.totalStaked = p.totalStaked + amt) ∧
    (∀ tid uid now tx p' s' st p,
       unstakeTokens s0 tid uid now = Except.ok (tx, p', s') →
       s0.txs.find? (stakeFindPred tid uid) = some st →
       lookupPool s0.pools st.poolId = some p →
       p'.totalStaked = max 0 (p.totalStaked - st.amount) ∧
       p'.totalStaked = p.totalStaked - st.amount) := by
  refine ⟨?_, ?_, ?_⟩
  · intro ops e he
    have hwf := Wf_runOps hw ops
    rw [refUnstakeSum_eq hwf]
    exact hwf.aggDiff e he
  · intro pid amt uid now tx p' s' p hok hp
    obtain ⟨pool, hpool, -, -, -, -, hp', -⟩ := stakeTokens_ok hok
    have hpe : p = pool := by
      rw [hpool] at hp
      injection hp.symm
    subst hpe
    rw [hp']
    show jsOr0 p.totalStaked + amt = p.totalStaked + amt
    rw [jsOr0_eq]
  · intro tid uid now tx p' s' st p hok hfind hp
    obtain ⟨st', pool, hfind', hnone, hlock, hpool, htx, hp', hs'⟩ := unstakeTokens_ok hok
    have hste : st = st' := by
      rw [hfind'] at hfind
      injection hfind.symm
    subst hste
    have hpe : p = pool := by
      rw [hpool] at hp
      injection hp.symm
    subst hpe
    obtain ⟨hstid, hstty, hstuid⟩ := stakeFindPred_decode (List.find?_some hfind)
    have hmem := List.mem_of_find?_eq_some hfind
    have hnoref := no_refs_of_checkNone hw hfind hnone
    have hstopen : openFor st.poolId s0.txs st = true := by
      unfold openFor closedIn
      have h1 : isStakeFor st.poolId st = true := by
        simp [isStakeFor, beq_iff_eq, hstty]
      have h2 : s0.txs.any (fun u => refsTx u st.transactionId) = false := by
        rw [List.any_eq_false]
        intro u hu
        simp [hstid, hnoref u hu]
      rw [h1, h2]
      rfl
    have hbound : st.amount ≤ openSum s0.txs st.poolId :=
      amount_le_openSum hw.amtPos hmem hstopen
    have haggP : p.totalStaked = openSum s0.txs st.poolId :=
      hw.agg (st.poolId, p) (lookupPool_mem hp)
    have hcollapse : max 0 (jsOr0 p.totalStaked - st.amount)
        = p.totalStaked - st.amount := by
      rw [jsOr0_eq]
      apply max_eq_right
      linarith
    constructor
    · rw [hp']
      show max 0 (jsOr0 p.totalStaked - st.amount) = max 0 (p.totalStaked - st.amount)
      rw [jsOr0_eq]
    · rw [hp']
      exact hcollapse

/-- C2 witness: stake 10 then unstake it; the final pool's `totalStaked`
(0) equals the stake sum (10) minus the referenced-unstake sum (10) of the
final ledger. -/
theorem C2_witness :
    (⟨"P", "basic", 5, 1, 0, 0, 0⟩ : Pool).totalStaked
      = stakeSum [⟨0, none, "stake", 10, 100, 7, 1, none⟩,
                  ⟨1, some 0, "unstake", 10, 200, 7, 1, none⟩] 1
        - refUnstakeSum [⟨0, none, "stake", 10, 100, 7, 1, none⟩,
                         ⟨1, some 0, "unstake", 10, 200, 7, 1, none⟩] 1 := by
  have e1 : stakeTokens ⟨[(1, ⟨"P", "basic", 5, 1, 0, 0, 0⟩)], [], [7], 0⟩ 1 10 7 100
      = Except.ok (⟨0, none, "stake", 10, 100, 7, 1, none⟩,
          ⟨"P", "basic", 5, 1, 0, 0, 10⟩,
          ⟨[(1, ⟨"P", "basic", 5, 1, 0, 0, 10⟩)],
           [⟨0, none, "stake", 10, 100, 7, 1, none⟩], [7], 1⟩) := by
    unfold stakeTokens
    norm_num [lookupPool, setPool, List.find?, jsOr0]
  have e2 : unstakeTokens ⟨[(1, ⟨"P", "basic", 5, 1, 0, 0, 10⟩)],
      [⟨0, none, "stake", 10, 100, 7, 1, none⟩], [7], 1⟩ 0 7 200
      = Except.ok (⟨1, some 0, "unstake", 10, 200, 7, 1, none⟩,
          ⟨"P", "basic", 5, 1, 0, 0, 0⟩,
          ⟨[(1, ⟨"P", "basic", 5, 1, 0, 0, 0⟩)],
           [⟨0, none, "stake", 10, 100, 7, 1, none⟩,
            ⟨1, some 0, "unstake", 10, 200, 7, 1, none⟩], [7], 2⟩) := by
    unfold unstakeTokens unstakeFinish
    norm_num [lookupPool, setPool, List.find?, stakeFindPred, unstakeOwnedPred, jsOr0]
  have hrun : runOps ⟨[(1, ⟨"P", "basic", 5, 1, 0, 0, 0⟩)], [], [7], 0⟩
      [Op.stakeOp 1 10 7 100, Op.unstakeOp 0 7 200]
      = ⟨[(1, ⟨"P", "basic", 5, 1, 0, 0, 0⟩)],
         [⟨0, none, "stake", 10, 100, 7, 1, none⟩,
          ⟨1, some 0, "unstake", 10, 200, 7, 1, none⟩], [7], 2⟩ := by
    show applyOp (applyOp ⟨[(1, ⟨"P", "basic", 5, 1, 0, 0, 0⟩)], [], [7], 0⟩
        (Op.stakeOp 1 10 7 100)) (Op.unstakeOp 0 7 200) = _
    have a1 : applyOp ⟨[(1, ⟨"P", "basic", 5, 1, 0, 0, 0⟩)], [], [7], 0⟩
        (Op.stakeOp 1 10 7 100)
        = ⟨[(1, ⟨"P", "basic", 5, 1, 0, 0, 10⟩)],
           [⟨0, none, "stake", 10, 100, 7, 1, none⟩], [7], 1⟩ := by
      show (match stakeTokens ⟨[(1, ⟨"P", "basic", 5, 1, 0, 0, 0⟩)], [], [7], 0⟩
              1 10 7 100 with
            | Except.ok (_, _, s') => s'
            | Except.error _ => ⟨[(1, ⟨"P", "basic", 5, 1, 0, 0, 0⟩)], [], [7], 0⟩) = _
      rw [e1]
    rw [a1]
    show (match unstakeTokens ⟨[(1, ⟨"P", "basic", 5, 1, 0, 0, 10⟩)],
            [⟨0, none, "stake", 10, 100, 7, 1, none⟩], [7], 1⟩ 0 7 200 with
          | Except.ok (_, _, s') => s'
          | Except.error _ => ⟨[(1, ⟨"P", "basic", 5, 1, 0, 0, 10⟩)],
              [⟨0, none, "stake", 10, 100, 7, 1, none⟩], [7], 1⟩) = _
    rw [e2]
  have h := (C2_totalStaked_invariant
      ⟨[(1, ⟨"P", "basic", 5, 1, 0, 0, 0⟩)], [], [7], 0⟩
      (Wf_noTxs (by
        intro e he
        rw [List.mem_singleton] at he
        subst he
        rfl))).1
    [Op.stakeOp 1 10 7 100, Op.unstakeOp 0 7 200]
    (1, ⟨"P", "basic", 5, 1, 0, 0, 0⟩)
    (by rw [hrun]; exact List.mem_singleton.mpr rfl)
  rw [hrun] at h
  exact h

/-- C9 (amended): for a fixed open stake with non-negative amount and APY,
the reward returned by `calculateRewards` is non-decreasing in the
evaluation time; the returned reward equals the unrounded reward
`amount * apy / 100 * (elapsedDays / 365)` rounded to 6 decimals, and that
unrounded reward is exactly linear in `amount` and `apy` (doubling either
doubles it) — the returned, 6-decimal-rounded value can fail exact
doubling at rounding granularity. -/
theorem C9_reward_monotone_linear (s : St) (tid uid : ℕ)
    (st : Transaction) (p : Pool)
    (hs : s.txs.find? (stakeFindPred tid uid) = some st)
    (hp : lookupPool s.pools st.poolId = some p)
    (hopen : s.txs.find? (unstakeRefPred tid) = none)
    (hamt : 0 ≤ st.amount) (hapy : 0 ≤ p.apy) :
    (∀ now1 now2 r1 r2, now1 ≤ now2 →
       calculateRewards s tid uid now1 = Except.ok r1 →
       calculateRewards s tid uid now2 = Except.ok r2 →
       r1.rewards ≤ r2.rewards) ∧
    (∀ now r, calculateRewards s tid uid now = Except.ok r →
       r.rewards = roundTo 6 (st.amount * p.apy / 100 *
         ((now - st.timestamp) / 86400000 / 365))) ∧
    (∀ a b d : ℚ, 2 * a * b / 100 * (d / 365) = 2 * (a * b / 100 * (d / 365)) ∧
       a * (2 * b) / 100 * (d / 365) = 2 * (a * b / 100 * (d / 365))) := by
  have heval : ∀ now, calculateRewards s tid uid now = Except.ok
      { stakeAmount := st.amount
        stakingDurationDays := roundTo 2 ((now - st.timestamp) / 86400000)
        apy := p.apy
        rewards := roundTo 6 (st.amount * p.apy / 100 *
          ((now - st.timestamp) / 86400000 / 365))
        isUnstaked := false } := by
    intro now
    unfold calculateRewards
    simp only [hs, hp, hopen]
    rfl
  refine ⟨?_, ?_, ?_⟩
  · intro now1 now2 r1 r2 h12 h1 h2
    rw [heval now1] at h1
    rw [heval now2] at h2
    simp only [Except.ok.injEq] at h1 h2
    subst h1
    subst h2
    show roundTo 6 (st.amount * p.apy / 100 * ((now1 - st.timestamp) / 86400000 / 365))
      ≤ roundTo 6 (st.amount * p.apy / 100 * ((now2 - st.timestamp) / 86400000 / 365))
    apply roundTo_mono
    have hc : 0 ≤ st.amount * p.apy / 100 := by positivity
    have hd : (now1 - st.timestamp) / 86400000 / 365
        ≤ (now2 - st.timestamp) / 86400000 / 365 := by
      gcongr
    exact mul_le_mul_of_nonneg_left hd hc
  · intro now r h
    rw [heval now] at h
    simp only [Except.ok.injEq] at h
    subst h
    rfl
  · intro a b d
    constructor <;> ring

/-- C9 counterexample: a 1-unit stake evaluated after 1892160 ms (0.0219
days).  With APY 1 the unrounded reward is 0.0000006, returned as the
rounded 0.000001; with APY 2 the unrounded reward is 0.0000012, returned
as the same rounded 0.000001 — doubling the APY does not double the
returned reward, so the returned reward is not linear in `apy`. -/
theorem C9_counterexample :
    calculateRewards ⟨[(1, ⟨"P", "basic", 1, 1, 0, 0, 1⟩)],
        [⟨0, none, "stake", 1, 0, 7, 1, none⟩], [7], 1⟩ 0 7 1892160
      = Except.ok ⟨1, 1/50, 1, 1/1000000, false⟩ ∧
    calculateRewards ⟨[(1, ⟨"P", "basic", 2, 1, 0, 0, 1⟩)],
        [⟨0, none, "stake", 1, 0, 7, 1, none⟩], [7], 1⟩ 0 7 1892160
      = Except.ok ⟨1, 1/50, 2, 1/1000000, false⟩ ∧
    ¬ ((1 : ℚ)/1000000 = 2 * (1/1000000)) := by
  refine ⟨?_, ?_, by norm_num⟩
  · have h : calculateRewards ⟨[(1, ⟨"P", "basic", 1, 1, 0, 0, 1⟩)],
        [⟨0, none, "stake", 1, 0, 7, 1, none⟩], [7], 1⟩ 0 7 1892160
        = Except.ok
          { stakeAmount := (1 : ℚ)
            stakingDurationDays := roundTo 2 (((1892160 : ℚ) - 0) / 86400000)
            apy := (1 : ℚ)
            rewards := roundTo 6 ((1 : ℚ) * 1 / 100 *
              (((1892160 : ℚ) - 0) / 86400000 / 365))
            isUnstaked := false } := by
      unfold calculateRewards
      simp only [show List.find? (stakeFindPred 0 7)
          [(⟨0, none, "stake", 1, 0, 7, 1, none⟩ : Transaction)]
          = some ⟨0, none, "stake", 1, 0, 7, 1, none⟩ from rfl]
      rfl
    rw [h]
    simp only [Except.ok.injEq, RewardResult.mk.injEq]
    refine ⟨trivial, ?_, trivial, ?_, trivial⟩
    · rw [show ((1892160 : ℚ) - 0) / 86400000 = 219/10000 by norm_num]
      rw [roundTo_eq (k := 2) (by norm_num) (by norm_num)]
      norm_num
    · rw [show (1 : ℚ) * 1 / 100 * (((1892160 : ℚ) - 0) / 86400000 / 365)
          = 3/5000000 by norm_num]
      rw [roundTo_eq (k := 1) (by norm_num) (by norm_num)]
      norm_num
  · have h : calculateRewards ⟨[(1, ⟨"P", "basic", 2, 1, 0, 0, 1⟩)],
        [⟨0, none, "stake", 1, 0, 7, 1, none⟩], [7], 1⟩ 0 7 1892160
        = Except.ok
          { stakeAmount := (1 : ℚ)
            stakingDurationDays := roundTo 2 (((1892160 : ℚ) - 0) / 86400000)
            apy := (2 : ℚ)
            rewards := roundTo 6 ((1 : ℚ) * 2 / 100 *
              (((1892160 : ℚ) - 0) / 86400000 / 365))
            isUnstaked := false } := by
      unfold calculateRewards
      simp only [show List.find? (stakeFindPred 0 7)
          [(⟨0, none, "stake", 1, 0, 7, 1, none⟩ : Transaction)]
          = some ⟨0, none, "stake", 1, 0, 7, 1, none⟩ from rfl]
      rfl
    rw [h]
    simp only [Except.ok.injEq, RewardResult.mk.injEq]
    refine ⟨trivial, ?_, trivial, ?_, trivial⟩
    · rw [show ((1892160 : ℚ) - 0) / 86400000 = 219/10000 by norm_num]
      rw [roundTo_eq (k := 2) (by norm_num) (by norm_num)]
      norm_num
    · rw [show (1 : ℚ) * 2 / 100 * (((1892160 : ℚ) - 0) / 86400000 / 365)
          = 3/2500000 by norm_num]
      rw [roundTo_eq (k := 1) (by norm_num) (by norm_num)]
      norm_num

/-- C9 witness: the linearity of the unrounded reward formula, obtained
from the theorem applied to a concrete open one-unit stake. -/
theorem C9_witness :
    2 * 1 * 1 / 100 * ((1 : ℚ) / 365) = 2 * (1 * 1 / 100 * (1 / 365)) := by
  exact ((C9_reward_monotone_linear
    ⟨[(1, ⟨"P", "basic", 1, 1, 0, 0, 1⟩)],
     [⟨0, none, "stake", 1, 0, 7, 1, none⟩], [7], 1⟩
    0 7 ⟨0, none, "stake", 1, 0, 7, 1, none⟩ ⟨"P", "basic", 1, 1, 0, 0, 1⟩
    rfl rfl rfl (by norm_num) (by norm_num)).2.2 1 1 1).1
